import Mathlib

/-!
Verification of the multisplitter layout core (Item.cpp / Item_p.h).

This file shallowly embeds the data model and the layout algorithms of the
multisplitter tree: the value types (QRect, QSize, QPoint, SizingInfo), the
extracted distribution loops of ItemContainer::growItem and
ItemContainer::calculateSqueezes, a flat-container model of the mutation
pipeline (insertItem / restoreChild / growItem / shrinkNeighbours /
positionItems / requestSeparatorMove) for the case where all children are
leaves (Item::setSize_recursive on a leaf is a plain setSize, so the flat
case is closed under these operations), and a general tree model used for
serialization, separator derivation and the separator-propagation lookup.

All machine integers are modelled as Int (or Nat where the source values are
provably non-negative on the modelled paths); C++ integer division is
Int.tdiv / Nat division, which truncate exactly like C++ does on the
non-negative values that occur here.  QRect follows Qt semantics:
right = x + width - 1 and bottom = y + height - 1.  The double-valued
percentageWithinParent is modelled as an exact rational; every statement
about percentages compares values produced by the same arithmetic on equal
inputs, so no floating-point rounding is involved.
-/

namespace Layouting

/-- Qt orientation: Qt::Horizontal / Qt::Vertical. -/
inductive Orientation where
  | Horizontal
  | Vertical
deriving DecidableEq, Repr

/-- Side enum from Item_p.h: Side1 is left/top, Side2 is right/bottom. -/
inductive Side where
  | Side1
  | Side2
deriving DecidableEq, Repr

/-- Location enum (Location_None omitted from the modelled operations). -/
inductive Location where
  | OnLeft
  | OnTop
  | OnRight
  | OnBottom
deriving DecidableEq, Repr

/-- DefaultSizeMode enum from Item_p.h. -/
inductive DefaultSizeMode where
  | ItemSize
  | Fair
  | FairButFloor
  | SizePolicy
  | None
deriving DecidableEq, Repr

/-- GrowthStrategy enum from Item_p.h. -/
inductive GrowthStrategy where
  | BothSidesEqually
  | Side1Only
  | Side2Only
deriving DecidableEq, Repr

/-- NeighbourSqueezeStrategy enum from Item_p.h. -/
inductive NeighbourSqueezeStrategy where
  | AllNeighbours
  | ImmediateNeighboursFirst
deriving DecidableEq, Repr

/-- ChildrenResizeStrategy enum from Item_p.h. -/
inductive ChildrenResizeStrategy where
  | Percentage
  | Side1SeparatorMove
  | Side2SeparatorMove
deriving DecidableEq, Repr

/-- AddingOption enum from Item_p.h. -/
inductive AddingOption where
  | None
  | StartHidden
deriving DecidableEq, Repr

/-- Item::separatorThickness, the process-wide separator thickness (default 5). -/
def separatorThickness : Int := 5

/-- QPoint. -/
structure QPoint where
  x : Int
  y : Int
deriving DecidableEq, Repr

/-- QSize. -/
structure QSize where
  w : Int
  h : Int
deriving DecidableEq, Repr

/-- QRect, stored as x, y, width, height.  Qt semantics:
right = x + w - 1, bottom = y + h - 1. -/
structure QRect where
  x : Int
  y : Int
  w : Int
  h : Int
deriving DecidableEq, Repr

def QRect.right (r : QRect) : Int := r.x + r.w - 1

def QRect.bottom (r : QRect) : Int := r.y + r.h - 1

def QRect.size (r : QRect) : QSize := ⟨r.w, r.h⟩

/-- QRect::setSize: keeps the top-left corner. -/
def QRect.setSize (r : QRect) (sz : QSize) : QRect := ⟨r.x, r.y, sz.w, sz.h⟩

/-- Item::hardcodedMinimumSize = (KDDOCKWIDGETS_MIN_WIDTH, KDDOCKWIDGETS_MIN_HEIGHT). -/
def hardcodedMinimumSize : QSize := ⟨80, 90⟩

/-- Layouting::oppositeOrientation. -/
def oppositeOrientation (o : Orientation) : Orientation :=
  match o with
  | .Vertical => .Horizontal
  | .Horizontal => .Vertical

/-- Layouting::length(QSize, Qt::Orientation). -/
def lengthOf (sz : QSize) (o : Orientation) : Int :=
  match o with
  | .Vertical => sz.h
  | .Horizontal => sz.w

/-- Layouting::pos(QPoint, Qt::Orientation). -/
def posOf (p : QPoint) (o : Orientation) : Int :=
  match o with
  | .Vertical => p.y
  | .Horizontal => p.x

/-- Layouting::orientationForLocation. -/
def orientationForLocation (loc : Location) : Orientation :=
  match loc with
  | .OnLeft => .Horizontal
  | .OnRight => .Horizontal
  | .OnTop => .Vertical
  | .OnBottom => .Vertical

/-- Layouting::locationIsSide1. -/
def locationIsSide1 (loc : Location) : Bool :=
  match loc with
  | .OnLeft => true
  | .OnTop => true
  | _ => false

/-- Layouting::adjustedRect: QRect::adjust along one axis.
Vertical: adjust(0, p1, 0, p2); horizontal: adjust(p1, 0, p2, 0).
QRect::adjust(dx1, dy1, dx2, dy2) adds dx1 to the left edge and dx2 to the
right edge, so width changes by dx2 - dx1. -/
def adjustedRect (r : QRect) (o : Orientation) (p1 p2 : Int) : QRect :=
  match o with
  | .Vertical => ⟨r.x, r.y + p1, r.w, r.h + p2 - p1⟩
  | .Horizontal => ⟨r.x + p1, r.y, r.w + p2 - p1, r.h⟩

/-- SizingInfo from Item_p.h.  percentageWithinParent is a double in the
source; it is modelled as an exact rational (see the file comment). -/
structure SizingInfo where
  geometry : QRect
  minSize : QSize
  maxSize : QSize := ⟨16777215, 16777215⟩
  percentageWithinParent : ℚ := 0
  isBeingInserted : Bool := false
deriving DecidableEq, Repr

def SizingInfo.size (s : SizingInfo) : QSize := s.geometry.size

def SizingInfo.length (s : SizingInfo) (o : Orientation) : Int := lengthOf s.size o

def SizingInfo.minLength (s : SizingInfo) (o : Orientation) : Int := lengthOf s.minSize o

/-- SizingInfo::availableLength = qMax(0, length - minLength). -/
def SizingInfo.availableLength (s : SizingInfo) (o : Orientation) : Int :=
  max 0 (s.length o - s.minLength o)

/-- SizingInfo::missingLength = qMax(0, minLength - length). -/
def SizingInfo.missingLength (s : SizingInfo) (o : Orientation) : Int :=
  max 0 (s.minLength o - s.length o)

def SizingInfo.position (s : SizingInfo) (o : Orientation) : Int :=
  posOf ⟨s.geometry.x, s.geometry.y⟩ o

/-- SizingInfo::edge: the inclusive far edge (QRect::bottom / QRect::right). -/
def SizingInfo.edge (s : SizingInfo) (o : Orientation) : Int :=
  match o with
  | .Vertical => s.geometry.bottom
  | .Horizontal => s.geometry.right

/-- SizingInfo::setLength: sets height (vertical) or width (horizontal). -/
def SizingInfo.setLength (s : SizingInfo) (l : Int) (o : Orientation) : SizingInfo :=
  match o with
  | .Vertical => { s with geometry := ⟨s.geometry.x, s.geometry.y, s.geometry.w, l⟩ }
  | .Horizontal => { s with geometry := ⟨s.geometry.x, s.geometry.y, l, s.geometry.h⟩ }

def SizingInfo.incrementLength (s : SizingInfo) (byAmount : Int) (o : Orientation) : SizingInfo :=
  s.setLength (s.length o + byAmount) o

def SizingInfo.setOppositeLength (s : SizingInfo) (l : Int) (o : Orientation) : SizingInfo :=
  s.setLength l (oppositeOrientation o)

/-- SizingInfo::setPos: QRect::moveTop / QRect::moveLeft (keeps the size). -/
def SizingInfo.setPos (s : SizingInfo) (p : Int) (o : Orientation) : SizingInfo :=
  match o with
  | .Vertical => { s with geometry := ⟨s.geometry.x, p, s.geometry.w, s.geometry.h⟩ }
  | .Horizontal => { s with geometry := ⟨p, s.geometry.y, s.geometry.w, s.geometry.h⟩ }

def SizingInfo.setSize (s : SizingInfo) (sz : QSize) : SizingInfo :=
  { s with geometry := s.geometry.setSize sz }

/-!
Exact rational helpers.  The percentage arithmetic of the source
((1.0 * length) / usable and the sanity-check sum) is modelled with exact
rationals.  Rat.add / Rat.mul / Rat.inv are irreducible, so the model
computes through mkRat instead; addQ_eq, divQInt_eq and sumQ_eq prove these
helpers equal to the standard rational operations.
-/

/-- Rational addition through mkRat (value-equal to Rat.add, see addQ_eq). -/
def addQ (a b : ℚ) : ℚ := mkRat (a.num * b.den + b.num * a.den) (a.den * b.den)

/-- Division of two integers as an exact rational (value-equal to the cast
quotient, see divQInt_eq). -/
def divQInt (a b : Int) : ℚ :=
  if 0 ≤ b then mkRat a b.toNat else mkRat (-a) (-b).toNat

/-- Rational list sum through addQ (value-equal to List.sum, see sumQ_eq). -/
def sumQ (l : List ℚ) : ℚ := l.foldr addQ 0

/-!
The BothSidesEqually distribution loop of ItemContainer::growItem
(Item.cpp, the while loop over toSteal / available1 / available2).

All four quantities are non-negative C++ ints on this path (availabilities
come from LengthOnSide::available which is clamped at 0, and toSteal is a
positive missing amount plus an optional separator thickness), so the loop
is modelled over Nat.  The C++ while loop is rendered as a fueled structural
recursion; one loop iteration removes at least 1 from toSteal (took1 >= 1
whenever both sides are non-zero), so fuel = the initial toSteal is enough
and the fuel-exhausted branch is unreachable from growBothSides.
-/

def growBothSidesGo : Nat → Nat → Nat → Nat → Nat × Nat
  | 0, _, _, _ => (0, 0)
  | fuel + 1, toSteal, available1, available2 =>
    if toSteal = 0 then (0, 0)
    else if available1 = 0 then (0, toSteal)
    else if available2 = 0 then (toSteal, 0)
    else
      let toTake := max 1 (toSteal / 2)
      let took1 := min toTake available1
      if toSteal - took1 = 0 then (took1, 0)
      else
        let took2 := min toTake available2
        let r := growBothSidesGo fuel
                   (toSteal - took1 - took2) (available1 - took1) (available2 - took2)
        (took1 + r.1, took2 + r.2)

/-- The side1Growth / side2Growth pair computed by the BothSidesEqually loop
of ItemContainer::growItem, as a function of toSteal and the two available
capacities. -/
def growBothSides (toSteal available1 available2 : Nat) : Nat × Nat :=
  growBothSidesGo toSteal toSteal available1 available2

/-!
The AllNeighbours loop of ItemContainer::calculateSqueezes.

The inner for loop walks the availabilities/squeezes arrays in index order,
skipping exhausted donors, taking qMin(missing, qMin(toTake, available))
from each and breaking once missing hits 0.  It is modelled on a list of
(availability, squeeze) pairs.  The outer while loop decreases missing by at
least 1 per iteration while donors remain, so fuel = needed is enough; the
assert-and-return-empty branch of the source (no donors left while
missing > 0) returns [].
-/

def innerPass (toTake : Nat) : List (Nat × Nat) → Nat → List (Nat × Nat) × Nat
  | [], missing => ([], missing)
  | p :: rest, missing =>
    if missing = 0 then (p :: rest, 0)
    else if p.1 = 0 then
      let r := innerPass toTake rest missing
      (p :: r.1, r.2)
    else
      let took := min missing (min toTake p.1)
      let r := innerPass toTake rest (missing - took)
      ((p.1 - took, p.2 + took) :: r.1, r.2)

def squeezeLoopGo : Nat → List (Nat × Nat) → Nat → List Nat
  | _, pairs, 0 => pairs.map Prod.snd
  | 0, _, _ + 1 => []
  | fuel + 1, pairs, missing + 1 =>
    let m := missing + 1
    let numDonors := pairs.countP (fun p => decide (0 < p.1))
    if numDonors = 0 then []
    else
      let toTake0 := m / numDonors
      let toTake := if toTake0 = 0 then m else toTake0
      let r := innerPass toTake pairs m
      squeezeLoopGo fuel r.1 r.2

/-- The AllNeighbours branch of ItemContainer::calculateSqueezes on a list of
donor availabilities. -/
def calculateSqueezesAll (availabilities : List Nat) (needed : Nat) : List Nat :=
  squeezeLoopGo needed (availabilities.map (fun a => (a, 0))) needed

/-- The ImmediateNeighboursFirst branch of ItemContainer::calculateSqueezes:
greedy, in index order (the reversed variant is handled by the caller). -/
def immediateGo : List Nat → Nat → List Nat
  | [], _ => []
  | a :: rest, missing =>
    let took := if 0 < a then min missing a else 0
    took :: immediateGo rest (missing - took)

/-- ItemContainer::calculateSqueezes: derives the availability of each donor
from its SizingInfo and distributes the needed amount according to the
strategy.  availableLength is clamped at 0 in the source, so the Nat
conversion is exact. -/
def calculateSqueezes (sizes : List SizingInfo) (o : Orientation) (needed : Nat)
    (strategy : NeighbourSqueezeStrategy) (reversed : Bool) : List Nat :=
  let availabilities := sizes.map (fun s => (s.availableLength o).toNat)
  match strategy with
  | .AllNeighbours => calculateSqueezesAll availabilities needed
  | .ImmediateNeighboursFirst =>
    if reversed then (immediateGo availabilities.reverse needed).reverse
    else immediateGo availabilities needed

/-- Modelled from the spec: the AllNeighbours distribution as the claim
words it, with per-donor take qMax(1, missing / numDonors) instead of the
take-the-whole-remainder fallback the source uses when the quotient is 0.
Declared only to compare against calculateSqueezesAll. -/
def squeezeLoopClaimGo : Nat → List (Nat × Nat) → Nat → List Nat
  | _, pairs, 0 => pairs.map Prod.snd
  | 0, _, _ + 1 => []
  | fuel + 1, pairs, missing + 1 =>
    let m := missing + 1
    let numDonors := pairs.countP (fun p => decide (0 < p.1))
    if numDonors = 0 then []
    else
      let toTake := max 1 (m / numDonors)
      let r := innerPass toTake pairs m
      squeezeLoopClaimGo fuel r.1 r.2

/-- Modelled from the spec: calculateSqueezes (AllNeighbours) as described by
the claim, for comparison with the source-derived version. -/
def calculateSqueezesClaim (sizes : List SizingInfo) (o : Orientation) (needed : Nat) : List Nat :=
  let availabilities := sizes.map (fun s => (s.availableLength o).toNat)
  squeezeLoopClaimGo needed (availabilities.map (fun a => (a, 0))) needed

/-!
Flat-container model.

ItemContainer methods for the case in which every child is a leaf Item.  On
this fragment Item::setSize_recursive and Item::setGeometry_recursive are
the plain leaf setters (Item.cpp), so the whole mutation pipeline of a
single container can be modelled without recursing into child containers.
Leaves carry an id modelling C++ pointer identity.  The container is the
root of its tree (parentContainer() == nullptr), which is exactly the
situation of scenarios S1..S7 of the spec; mapToRoot on the root is the
identity, and availableOnSide_recursive stops at the root.
Separators are not stored: their positions are re-derived by
requiredSeparatorPositions after every mutation (updateSeparators keeps
m_separators exactly at those positions), so the model treats the separator
position list as derived data.
-/

/-- A leaf Item: its SizingInfo, its m_isVisible flag, and an id standing in
for the C++ object identity. -/
structure Leaf where
  id : Nat
  sizing : SizingInfo
  m_isVisible : Bool
deriving DecidableEq, Repr

/-- Item::isVisible(excludeBeingInserted) for a leaf. -/
def Leaf.isVisible (item : Leaf) (excludeBeingInserted : Bool) : Bool :=
  item.m_isVisible && !(excludeBeingInserted && item.sizing.isBeingInserted)

/-- Item::setSize for a leaf (setGeometry with the same top-left). -/
def Leaf.setSize (item : Leaf) (sz : QSize) : Leaf :=
  { item with sizing := item.sizing.setSize sz }

/-- Item::setLength for a leaf: sets the length along o and clamps the
opposite length up to hardcodedMinimumSize. -/
def Leaf.setLength (item : Leaf) (l : Int) (o : Orientation) : Leaf :=
  match o with
  | .Vertical =>
    let w := max item.sizing.geometry.w hardcodedMinimumSize.w
    item.setSize ⟨w, l⟩
  | .Horizontal =>
    let h := max item.sizing.geometry.h hardcodedMinimumSize.h
    item.setSize ⟨l, h⟩

/-- Item::setPos(QPoint) for a leaf: moves the geometry keeping the size. -/
def Leaf.setPos (item : Leaf) (p : QPoint) : Leaf :=
  { item with sizing :=
      { item.sizing with geometry :=
          ⟨p.x, p.y, item.sizing.geometry.w, item.sizing.geometry.h⟩ } }

/-- Item::setGeometry (leaf setGeometry_recursive). -/
def Leaf.setGeometry (item : Leaf) (r : QRect) : Leaf :=
  { item with sizing := { item.sizing with geometry := r } }

/-- A container whose children are all leaves, acting as the root of its
layout. -/
structure FlatContainer where
  m_sizingInfo : SizingInfo
  m_orientation : Orientation
  m_children : List Leaf
  m_blockUpdatePercentages : Bool := false
deriving DecidableEq, Repr

namespace FlatContainer

/-- Item::size. -/
def size (c : FlatContainer) : QSize := c.m_sizingInfo.size

/-- ItemContainer::length: the container length along its orientation. -/
def containerLength (c : FlatContainer) : Int := lengthOf c.size c.m_orientation

/-- ItemContainer::oppositeLength. -/
def oppositeLength (c : FlatContainer) : Int :=
  lengthOf c.size (oppositeOrientation c.m_orientation)

/-- ItemContainer::rect: the geometry moved to (0, 0). -/
def rect (c : FlatContainer) : QRect := ⟨0, 0, c.size.w, c.size.h⟩

/-- ItemContainer::numVisibleChildren: counts children with isVisible(). -/
def numVisibleChildren (c : FlatContainer) : Nat :=
  c.m_children.countP (fun item => item.m_isVisible)

/-- ItemContainer::hasVisibleChildren. -/
def hasVisibleChildren (c : FlatContainer) (excludeBeingInserted : Bool) : Bool :=
  c.m_children.any (fun item => item.isVisible excludeBeingInserted)

/-- ItemContainer::visibleChildren(includeBeingInserted). -/
def visibleChildren (c : FlatContainer) (includeBeingInserted : Bool) : List Leaf :=
  c.m_children.filter (fun item =>
    if includeBeingInserted then item.m_isVisible || item.sizing.isBeingInserted
    else item.m_isVisible && !item.sizing.isBeingInserted)

/-- ItemContainer::usableLength: the length minus the separator waste. -/
def usableLength (c : FlatContainer) : Int :=
  let children := c.visibleChildren false
  if children.length ≤ 1 then c.containerLength
  else c.containerLength - separatorThickness * ((children.length : Int) - 1)

/-- ItemContainer::contains: pointer membership in m_children. -/
def contains (c : FlatContainer) (item : Leaf) : Bool :=
  c.m_children.any (fun x => x.id == item.id)

/-- ItemContainer::hasOrientationFor. -/
def hasOrientationFor (c : FlatContainer) (loc : Location) : Bool :=
  if c.m_children.length ≤ 1 then true
  else c.m_orientation == orientationForLocation loc

/-- ItemContainer::sizes(ignoreBeingInserted): the SizingInfos of the
visible children (children are leaves, so no container min refresh). -/
def sizes (c : FlatContainer) (ignoreBeingInserted : Bool) : List SizingInfo :=
  (c.visibleChildren ignoreBeingInserted).map (fun item => item.sizing)

/-- ItemContainer::minSize: along the orientation the sum of the min lengths
of the (visible or being-inserted) children plus the separator waste; across
it their max. -/
def minSizeCalc (c : FlatContainer) : QSize :=
  let counted := c.m_children.filter
    (fun item => item.m_isVisible || item.sizing.isBeingInserted)
  let numVisible : Int := counted.length
  let separatorWaste := max 0 ((numVisible - 1) * separatorThickness)
  match c.m_orientation with
  | .Vertical =>
    ⟨(counted.map (fun item => item.sizing.minSize.w)).foldr max 0,
     (counted.map (fun item => item.sizing.minSize.h)).sum + separatorWaste⟩
  | .Horizontal =>
    ⟨(counted.map (fun item => item.sizing.minSize.w)).sum + separatorWaste,
     (counted.map (fun item => item.sizing.minSize.h)).foldr max 0⟩

/-- Item::missingSize: minSize() - size(), clamped at 0 componentwise. -/
def missingSize (c : FlatContainer) : QSize :=
  ⟨max 0 (c.minSizeCalc.w - c.size.w), max 0 (c.minSizeCalc.h - c.size.h)⟩

/-- ItemContainer::Private::defaultLengthFor, DefaultSizeMode::Fair case:
usableLength / (numVisibleChildren + 1) with the item counted in, before the
final minLength clamp (C++ int division; Int.tdiv truncates identically). -/
def fairLengthFor (c : FlatContainer) : Int :=
  let numVisibleChildren : Int := (c.numVisibleChildren : Int) + 1
  let usableLength := c.containerLength - separatorThickness * (numVisibleChildren - 1)
  Int.tdiv usableLength numVisibleChildren

/-- ItemContainer::Private::defaultLengthFor. -/
def defaultLengthFor (c : FlatContainer) (item : SizingInfo) (mode : DefaultSizeMode) : Int :=
  let result : Int :=
    match mode with
    | .None => 0
    | .Fair => c.fairLengthFor
    | .FairButFloor => min c.fairLengthFor (item.length c.m_orientation)
    | .ItemSize => item.length c.m_orientation
    | .SizePolicy => 0
  max (item.minLength c.m_orientation) result

end FlatContainer

/-- ItemContainer::LengthOnSide. -/
structure LengthOnSide where
  length : Int := 0
  minLength : Int := 0
deriving DecidableEq, Repr

def LengthOnSide.available (l : LengthOnSide) : Int := max 0 (l.length - l.minLength)

/-- ItemContainer::lengthOnSide: totals over sizes[0..fromIndex] (Side1) or
sizes[fromIndex..count-1] (Side2); out-of-range fromIndex gives zeros. -/
def lengthOnSide (sizes : List SizingInfo) (fromIndex : Int) (side : Side)
    (o : Orientation) : LengthOnSide :=
  if fromIndex < 0 then {}
  else if (sizes.length : Int) ≤ fromIndex then {}
  else
    let fi := fromIndex.toNat
    let range := match side with
      | .Side1 => sizes.take (fi + 1)
      | .Side2 => sizes.drop fi
    { length := (range.map (fun s => s.length o)).sum,
      minLength := (range.map (fun s => s.minLength o)).sum }

namespace FlatContainer

/-- ItemContainer::neighboursLengthFor: total length of visible neighbours of
the child on the given side, along the container orientation (0 when the
queried orientation differs or the child is not a visible child). -/
def neighboursLengthFor (c : FlatContainer) (id : Nat) (side : Side) (o : Orientation) : Int :=
  let children := c.visibleChildren false
  match children.findIdx? (fun x => x.id == id) with
  | none => 0
  | some index =>
    if o = c.m_orientation then
      let range := match side with
        | .Side1 => children.take index
        | .Side2 => children.drop (index + 1)
      (range.map (fun x => x.sizing.length c.m_orientation)).sum
    else 0

/-- ItemContainer::neighboursMinLengthFor. -/
def neighboursMinLengthFor (c : FlatContainer) (id : Nat) (side : Side) (o : Orientation) : Int :=
  let children := c.visibleChildren false
  match children.findIdx? (fun x => x.id == id) with
  | none => 0
  | some index =>
    if o = c.m_orientation then
      let range := match side with
        | .Side1 => children.take index
        | .Side2 => children.drop (index + 1)
      (range.map (fun x => x.sizing.minLength c.m_orientation)).sum
    else 0

/-- ItemContainer::availableOnSide. -/
def availableOnSide (c : FlatContainer) (id : Nat) (side : Side) : Int :=
  c.neighboursLengthFor id side c.m_orientation
    - c.neighboursMinLengthFor id side c.m_orientation

/-- ItemContainer::availableOnSide_recursive at the root: the recursion stops
here, so only the matching-orientation local availability remains. -/
def availableOnSide_recursive (c : FlatContainer) (id : Nat) (side : Side)
    (o : Orientation) : Int :=
  if o = c.m_orientation then c.availableOnSide id side else 0

end FlatContainer

/-- The loop body of ItemContainer::requiredSeparatorPositions: walks
m_children, emits edge+1 for each visible child, and stops once numSeparators
positions were produced.  mapToRoot on the root container is the identity. -/
def reqSepGoFlat (o : Orientation) : List Leaf → Nat → List Int
  | [], _ => []
  | item :: rest, budget =>
    if budget = 0 then []
    else if item.m_isVisible then
      (item.sizing.edge o + 1) :: reqSepGoFlat o rest (budget - 1)
    else reqSepGoFlat o rest budget

namespace FlatContainer

/-- ItemContainer::requiredSeparatorPositions (root container, so positions
are already in root coordinates). -/
def requiredSeparatorPositions (c : FlatContainer) : List Int :=
  reqSepGoFlat c.m_orientation c.m_children (c.numVisibleChildren - 1)

/-- ItemContainer::minPosForSeparator_global: separator position minus the
recursive Side1 availability of the visible child after it. -/
def minPosForSeparator_global (c : FlatContainer) (separatorIndex : Nat) : Int :=
  let children := c.visibleChildren false
  let sepPos := (c.requiredSeparatorPositions).getD separatorIndex 0
  match children.get? (separatorIndex + 1) with
  | none => 0
  | some item => sepPos - c.availableOnSide_recursive item.id .Side1 c.m_orientation

/-- ItemContainer::maxPosForSeparator_global. -/
def maxPosForSeparator_global (c : FlatContainer) (separatorIndex : Nat) : Int :=
  let children := c.visibleChildren false
  let sepPos := (c.requiredSeparatorPositions).getD separatorIndex 0
  match children.get? separatorIndex with
  | none => 0
  | some item => sepPos + c.availableOnSide_recursive item.id .Side2 c.m_orientation

/-- ItemContainer::updateChildPercentages: visible non-inserted children get
length / usableLength, the rest get 0; a no-op while
m_blockUpdatePercentages is set. -/
def updateChildPercentages (c : FlatContainer) : FlatContainer :=
  if c.m_blockUpdatePercentages then c
  else
    let usable := c.usableLength
    { c with m_children := c.m_children.map (fun item =>
        if item.m_isVisible && !item.sizing.isBeingInserted then
          let p := divQInt (item.sizing.length c.m_orientation) usable
          { item with sizing := { item.sizing with percentageWithinParent := p } }
        else
          { item with sizing := { item.sizing with percentageWithinParent := 0 } }) }

/-- ItemContainer::childPercentages. -/
def childPercentages (c : FlatContainer) : List ℚ :=
  (c.visibleChildren false).map (fun item => item.sizing.percentageWithinParent)

/-- ItemContainer::updateSeparators (and the _recursive variant on a flat
tree): separator positions are derived data here, so the residual effect is
the updateChildPercentages call at its end. -/
def updateSeparatorsState (c : FlatContainer) : FlatContainer :=
  c.updateChildPercentages

/-- Updates the child with the given id (no-op if absent). -/
def mapChild (c : FlatContainer) (id : Nat) (f : Leaf → Leaf) : FlatContainer :=
  { c with m_children := c.m_children.map (fun x => if x.id == id then f x else x) }

/-- The SizingInfo of the child with the given id. -/
def childSizing (c : FlatContainer) (id : Nat) : SizingInfo :=
  match c.m_children.find? (fun x => x.id == id) with
  | some x => x.sizing
  | none => { geometry := ⟨0, 0, 0, 0⟩, minSize := ⟨0, 0⟩ }

/-- Item::setIsVisible on a child (the visibility signals carry no further
layout effect on this fragment). -/
def setChildVisible (c : FlatContainer) (id : Nat) (is : Bool) : FlatContainer :=
  c.mapChild id (fun x => { x with m_isVisible := is })

/-- Item::setBeingInserted on a child, including the trickle into the parent
container (the root here): when set, the root flag is raised only if the
root has no visible children; when cleared, the root flag is cleared. -/
def setChildBeingInserted (c : FlatContainer) (id : Nat) (is : Bool) : FlatContainer :=
  let c1 := c.mapChild id
    (fun x => { x with sizing := { x.sizing with isBeingInserted := is } })
  if is then
    if c1.hasVisibleChildren false then c1
    else { c1 with m_sizingInfo := { c1.m_sizingInfo with isBeingInserted := true } }
  else { c1 with m_sizingInfo := { c1.m_sizingInfo with isBeingInserted := false } }

/-- Item::setGeometry_recursive on a leaf child. -/
def setChildGeometry (c : FlatContainer) (id : Nat) (r : QRect) : FlatContainer :=
  c.mapChild id (fun x => x.setGeometry r)

/-- The restoreChild step that zeroes the restored item length before
growItem (geometry.setHeight(0) / geometry.setWidth(0)). -/
def zeroChildLength (c : FlatContainer) (id : Nat) : FlatContainer :=
  c.mapChild id (fun x =>
    match c.m_orientation with
    | .Vertical => { x with sizing := { x.sizing with geometry :=
        ⟨x.sizing.geometry.x, x.sizing.geometry.y, x.sizing.geometry.w, 0⟩ } }
    | .Horizontal => { x with sizing := { x.sizing with geometry :=
        ⟨x.sizing.geometry.x, x.sizing.geometry.y, 0, x.sizing.geometry.h⟩ } })

/-- ItemContainer::shrinkNeighbours: squeezes the neighbours of index on
side 1 by side1Amount and on side 2 by side2Amount, subtracting each squeeze
from the neighbour length via adjustedRect. -/
def shrinkNeighbours (c : FlatContainer) (index : Nat) (sizes : List SizingInfo)
    (side1Amount side2Amount : Int) (strategy : NeighbourSqueezeStrategy) : List SizingInfo :=
  let o := c.m_orientation
  let sizesA :=
    if 0 < side1Amount then
      let range := sizes.take index
      let reversed := strategy == NeighbourSqueezeStrategy.ImmediateNeighboursFirst
      let squeezes := calculateSqueezes range o side1Amount.toNat strategy reversed
      (List.zipWith (fun s q =>
        s.setSize (adjustedRect s.geometry o 0 (-(q : Int))).size) range squeezes)
        ++ sizes.drop index
    else sizes
  if 0 < side2Amount then
    let range := sizesA.drop (index + 1)
    let squeezes := calculateSqueezes range o side2Amount.toNat strategy false
    sizesA.take (index + 1)
      ++ List.zipWith (fun s q =>
           s.setSize (adjustedRect s.geometry o (q : Int) 0).size) range squeezes
  else sizesA

/-- ItemContainer::growItem(int index, SizingInfo::List, ...): grows entry
index by missing (stealing missing plus, when accountForNewSeparator, one
separator thickness from the neighbours), then shrinks the neighbours. -/
def growItemSizes (c : FlatContainer) (index : Nat) (sizes : List SizingInfo)
    (missing : Int) (growthStrategy : GrowthStrategy)
    (neighbourSqueezeStrategy : NeighbourSqueezeStrategy)
    (accountForNewSeparator : Bool) : List SizingInfo :=
  let o := c.m_orientation
  let toSteal := missing + (if accountForNewSeparator then separatorThickness else 0)
  if toSteal = 0 then sizes
  else
    match sizes.get? index with
    | none => sizes
    | some s0 =>
      let s1 := ((s0.setLength (s0.length o + missing) o).setOppositeLength c.oppositeLength o)
      let sizes1 := sizes.set index s1
      match growthStrategy with
      | .BothSidesEqually =>
        if sizes1.length = 1 then
          sizes1.set index (s1.incrementLength missing o)
        else
          let side1Length := lengthOnSide sizes1 ((index : Int) - 1) .Side1 o
          let side2Length := lengthOnSide sizes1 ((index : Int) + 1) .Side2 o
          let available1 := side1Length.available
          let available2 := side2Length.available
          let g := growBothSides toSteal.toNat available1.toNat available2.toNat
          c.shrinkNeighbours index sizes1 (g.1 : Int) (g.2 : Int) neighbourSqueezeStrategy
      | .Side1Only => c.shrinkNeighbours index sizes1 missing 0 neighbourSqueezeStrategy
      | .Side2Only => c.shrinkNeighbours index sizes1 0 missing neighbourSqueezeStrategy

end FlatContainer

/-- The loop of ItemContainer::positionItems(SizingInfo::List): lays the
sizes out sequentially along the orientation with separator gaps, setting
the opposite length to the container opposite length; being-inserted entries
only advance the cursor by one separator thickness. -/
def positionItemsGo (o : Orientation) (oppositeLengthVal : Int) :
    Int → List SizingInfo → List SizingInfo
  | _, [] => []
  | nextPos, s :: rest =>
    if s.isBeingInserted then
      s :: positionItemsGo o oppositeLengthVal (nextPos + separatorThickness) rest
    else
      let s1 := (s.setLength oppositeLengthVal (oppositeOrientation o)).setPos 0
                  (oppositeOrientation o)
      let s2 := s1.setPos nextPos o
      s2 :: positionItemsGo o oppositeLengthVal
             (nextPos + s2.length o + separatorThickness) rest

/-- The loop of ItemContainer::applyGeometries: every visible child receives
the size of its computed SizingInfo (children are leaves, so
setSize_recursive is a plain setSize). -/
def applySizesGo : List Leaf → List SizingInfo → List Leaf
  | [], _ => []
  | item :: items, sizes =>
    if item.m_isVisible && !item.sizing.isBeingInserted then
      match sizes with
      | [] => item :: items
      | s :: srest => item.setSize s.geometry.size :: applySizesGo items srest
    else item :: applySizesGo items sizes

/-- The loop of ItemContainer::applyPositions: every visible child whose
computed SizingInfo is not being inserted gets the computed opposite length
(via Item::setLength_recursive) and the computed top-left position. -/
def applyPositionsGo (o : Orientation) : List Leaf → List SizingInfo → List Leaf
  | [], _ => []
  | item :: items, sizes =>
    if item.m_isVisible && !item.sizing.isBeingInserted then
      match sizes with
      | [] => item :: items
      | s :: srest =>
        let item1 :=
          if s.isBeingInserted then item
          else
            (item.setLength (s.length (oppositeOrientation o)) (oppositeOrientation o)).setPos
              ⟨s.geometry.x, s.geometry.y⟩
        item1 :: applyPositionsGo o items srest
    else item :: applyPositionsGo o items sizes

namespace FlatContainer

/-- ItemContainer::applyPositions. -/
def applyPositions (c : FlatContainer) (sizes : List SizingInfo) : FlatContainer :=
  { c with m_children := applyPositionsGo c.m_orientation c.m_children sizes }

/-- ItemContainer::positionItems(): recomputes the visible sizes, positions
them, applies the positions and refreshes the separators. -/
def positionItemsState (c : FlatContainer) : FlatContainer :=
  let sizes := c.sizes false
  let sizes2 := positionItemsGo c.m_orientation c.oppositeLength 0 sizes
  let c2 := c.applyPositions sizes2
  c2.updateSeparatorsState

/-- ItemContainer::applyGeometries: sets the computed sizes on the visible
children, then positions everything. -/
def applyGeometries (c : FlatContainer) (sizes : List SizingInfo)
    (_strategy : ChildrenResizeStrategy) : FlatContainer :=
  let c1 := { c with m_children := applySizesGo c.m_children sizes }
  c1.positionItemsState

/-- ItemContainer::growItem(Item*, ...): looks the item up among the visible
children, runs the index-based growItem on a working copy of the sizes and
applies the resulting geometries. -/
def growItemById (c : FlatContainer) (id : Nat) (amount : Int)
    (growthStrategy : GrowthStrategy)
    (neighbourSqueezeStrategy : NeighbourSqueezeStrategy)
    (accountForNewSeparator : Bool)
    (childResizeStrategy : ChildrenResizeStrategy) : FlatContainer :=
  let items := c.visibleChildren false
  match items.findIdx? (fun x => x.id == id) with
  | none => c
  | some index =>
    let sizes := c.sizes false
    let sizes2 := c.growItemSizes index sizes amount growthStrategy
                    neighbourSqueezeStrategy accountForNewSeparator
    c.applyGeometries sizes2 childResizeStrategy

end FlatContainer

/-- Truncation of a rational toward zero, the behaviour of the C++
double-to-int conversion in resizeChildren. -/
def ratTrunc (q : ℚ) : Int := if 0 ≤ q then q.floor else q.ceil

/-- The Percentage branch of ItemContainer::resizeChildren: each child gets
percentage * totalNewLength, the last child absorbs the remainder; a
non-positive computed length aborts (Q_ASSERT) leaving the rest unmodified. -/
def resizeChildrenPercentGo (o : Orientation) (contSize : QSize) (totalNewLength : Int)
    (lengthChanged : Bool) : List ℚ → List SizingInfo → Int → List SizingInfo
  | _, [], _ => []
  | percentages, s :: rest, remaining =>
    let isLast := rest.isEmpty
    let childPercentage := percentages.headD 0
    let newItemLength :=
      if lengthChanged then
        if isLast then remaining else ratTrunc (childPercentage * (totalNewLength : ℚ))
      else s.length o
    if newItemLength ≤ 0 then s :: rest
    else
      let s2 := match o with
        | .Vertical => s.setSize ⟨contSize.w, newItemLength⟩
        | .Horizontal => s.setSize ⟨newItemLength, contSize.h⟩
      s2 :: resizeChildrenPercentGo o contSize totalNewLength lengthChanged
             percentages.tail rest (remaining - newItemLength)

/-- The shrinking separator-move branch of ItemContainer::resizeChildren:
children donate their available length greedily in iteration order. -/
def resizeSepMoveShrinkGo (o : Orientation) : List SizingInfo → Int → List SizingInfo
  | [], _ => []
  | s :: rest, remaining =>
    if remaining = 0 then s :: rest
    else
      let availableToGive := s.availableLength o
      let took := min availableToGive remaining
      s.incrementLength (-took) o :: resizeSepMoveShrinkGo o rest (remaining - took)

/-- The growing separator-move branch of ItemContainer::resizeChildren: the
first child in iteration order absorbs the whole remainder. -/
def resizeSepMoveGrowGo (o : Orientation) : List SizingInfo → Int → List SizingInfo
  | [], _ => []
  | s :: rest, remaining =>
    if remaining = 0 then s :: rest
    else s.incrementLength remaining o :: rest

namespace FlatContainer

/-- ItemContainer::resizeChildren.  The container must already carry the new
size (setSize_recursive sets it before calling this, and usableLength /
width() / height() read the current size). -/
def resizeChildren (c : FlatContainer) (oldSize newSize : QSize)
    (childSizes : List SizingInfo) (strategy : ChildrenResizeStrategy) : List SizingInfo :=
  let o := c.m_orientation
  let childPercentages := c.childPercentages
  let widthChanged := oldSize.w != newSize.w
  let heightChanged := oldSize.h != newSize.h
  let lengthChanged := (o == Orientation.Vertical && heightChanged)
    || (o == Orientation.Horizontal && widthChanged)
  let totalNewLength := c.usableLength
  match strategy with
  | .Percentage =>
    resizeChildrenPercentGo o c.size totalNewLength lengthChanged
      childPercentages childSizes totalNewLength
  | _ =>
    let remaining0 := lengthOf ⟨newSize.w - oldSize.w, newSize.h - oldSize.h⟩ o
    let isGrowing := 0 < remaining0
    let remaining := if remaining0 < 0 then -remaining0 else remaining0
    let isSide1SeparatorMove := strategy == ChildrenResizeStrategy.Side1SeparatorMove
    let resizeHeadFirst :=
      if isGrowing && isSide1SeparatorMove then true
      else if isGrowing && !isSide1SeparatorMove then false
      else if !isGrowing && isSide1SeparatorMove then false
      else true
    let core := fun (l : List SizingInfo) (r : Int) =>
      if isGrowing then resizeSepMoveGrowGo o l r else resizeSepMoveShrinkGo o l r
    if resizeHeadFirst then core childSizes remaining
    else (core childSizes.reverse remaining).reverse

/-- The minima-fixing loop of ItemContainer::setSize_recursive: for each
index in turn, if the computed size is below its minimum, grow it with
BothSidesEqually / AllNeighbours. -/
def fixMinimaGo (c : FlatContainer) : List SizingInfo → Nat → Nat → List SizingInfo
  | sizes, _, 0 => sizes
  | sizes, i, fuel + 1 =>
    let missing := match sizes.get? i with
      | none => 0
      | some s => s.missingLength c.m_orientation
    let sizes2 :=
      if 0 < missing then
        c.growItemSizes i sizes missing .BothSidesEqually .AllNeighbours false
      else sizes
    c.fixMinimaGo sizes2 (i + 1) fuel

/-- ItemContainer::setSize_recursive on a flat container: validates the new
size against the container minimum, resizes the children according to the
strategy, positions them, fixes minima and applies the geometries; child
percentages are blocked for the duration (QScopedValueRollback). -/
def setSizeRecursive (c : FlatContainer) (newSize : QSize)
    (strategy : ChildrenResizeStrategy) : FlatContainer :=
  let minSize := c.minSizeCalc
  if newSize.w < minSize.w ∨ newSize.h < minSize.h then c
  else if newSize = c.size then c
  else
    let oldSize := c.size
    let cBlocked := { c with m_sizingInfo := c.m_sizingInfo.setSize newSize,
                             m_blockUpdatePercentages := true }
    let childSizes := cBlocked.sizes false
    let childSizes1 := cBlocked.resizeChildren oldSize newSize childSizes strategy
    let childSizes2 := positionItemsGo cBlocked.m_orientation cBlocked.oppositeLength 0 childSizes1
    let childSizes3 := cBlocked.fixMinimaGo childSizes2 0 childSizes2.length
    let c2 := cBlocked.applyGeometries childSizes3 strategy
    { c2 with m_blockUpdatePercentages := c.m_blockUpdatePercentages }

/-- ItemContainer::updateSizeConstraints at the root: grows the layout when
the container minimum exceeds the current size. -/
def updateSizeConstraints (c : FlatContainer) : FlatContainer :=
  let missingSize := c.missingSize
  if missingSize = (⟨0, 0⟩ : QSize) then c
  else c.setSizeRecursive ⟨c.size.w + missingSize.w, c.size.h + missingSize.h⟩ .Percentage

/-- ItemContainer::restoreChild on a root container: makes the child visible,
updates the size constraints, and either hands it the full rect (single
visible child) or clamps its proposed length into the locally available
space and grows it there, accounting for the new separator. -/
def restoreChild (c : FlatContainer) (id : Nat)
    (neighbourSqueezeStrategy : NeighbourSqueezeStrategy) : FlatContainer :=
  let _hadVisibleChildren := c.hasVisibleChildren true
  let c1 := c.setChildVisible id true
  let c2 := c1.setChildBeingInserted id true
  let c3 := c2.updateSizeConstraints
  let c4 := c3.setChildBeingInserted id false
  if c4.numVisibleChildren = 1 then
    ((c4.setChildGeometry id c4.rect).updateSeparatorsState)
  else
    let available := c4.availableOnSide id .Side1 + c4.availableOnSide id .Side2
                       - separatorThickness
    let maxL := available
    let minL := (c4.childSizing id).minLength c4.m_orientation
    let proposed := (c4.childSizing id).length c4.m_orientation
    let newLength := max minL (min proposed maxL)
    let c5 := c4.zeroChildLength id
    let c6 := c5.growItemById id newLength .BothSidesEqually neighbourSqueezeStrategy
                true .Percentage
    c6.updateSeparatorsState

/-- ItemContainer::insertItem(Item*, int index, DefaultSizeMode): sizes the
item to the default length, inserts it, and restores it (the container is
not converting a child, so the restoreChild call runs for visible items). -/
def insertItemAtIndex (c : FlatContainer) (item : Leaf) (index : Nat)
    (defaultSizeMode : DefaultSizeMode) : FlatContainer :=
  let item1 :=
    if defaultSizeMode = DefaultSizeMode.None then item
    else item.setLength (c.defaultLengthFor item.sizing defaultSizeMode) c.m_orientation
  let c1 := { c with m_children := c.m_children.insertIdx index item1 }
  if item1.m_isVisible then c1.restoreChild item1.id .AllNeighbours else c1

/-- ItemContainer::insertItem(Item*, Location, DefaultSizeMode, AddingOption)
on a root whose orientation admits the location (a container with at most
one child is orientation-free and adopts the location orientation).  An item
already present is rejected with a warning and nothing changes.  The
orthogonal branch wraps the current children into a sub-container, leaving
the flat fragment; no modelled scenario exercises it, so it is a no-op
here. -/
def insertItemAtLocation (c : FlatContainer) (item : Leaf) (loc : Location)
    (defaultSizeMode : DefaultSizeMode) (addingOption : AddingOption) : FlatContainer :=
  if c.contains item then c
  else
    let item1 := { item with m_isVisible := addingOption != AddingOption.StartHidden }
    if c.hasOrientationFor loc then
      let c1 :=
        if c.m_children.length = 1 then { c with m_orientation := orientationForLocation loc }
        else c
      let index := if locationIsSide1 loc then 0 else c1.m_children.length
      let c2 := c1.insertItemAtIndex item1 index defaultSizeMode
      c2.updateSeparatorsState
    else c

/-- ItemContainer::requestSeparatorMove on a root container: bounds-checks
the new position against the global min/max, absorbs what is locally
available on the move side, and (being the root) merely warns when delta
remains. -/
def requestSeparatorMove (c : FlatContainer) (separatorIndex : Nat) (delta : Int) :
    FlatContainer :=
  let seps := c.requiredSeparatorPositions
  if seps.length ≤ separatorIndex then c
  else if delta = 0 then c
  else
    let minPos := c.minPosForSeparator_global separatorIndex
    let pos := seps.getD separatorIndex 0
    let maxPos := c.maxPosForSeparator_global separatorIndex
    if pos + delta < minPos ∨ maxPos < pos + delta then c
    else
      let children := c.visibleChildren false
      if children.length ≤ separatorIndex then c
      else
        let remainingToTake : Int := |delta|
        if delta < 0 then
          match c.m_children.get? (separatorIndex + 1) with
          | none => c
          | some side2Neighbour =>
            let available1 := c.availableOnSide side2Neighbour.id .Side1
            let tookLocally := min available1 remainingToTake
            if tookLocally = 0 then c
            else c.growItemById side2Neighbour.id tookLocally .Side1Only
                   .ImmediateNeighboursFirst false .Side1SeparatorMove
        else
          match c.m_children.get? separatorIndex with
          | none => c
          | some side1Neighbour =>
            let available2 := c.availableOnSide side1Neighbour.id .Side2
            let tookLocally := min available2 remainingToTake
            if tookLocally = 0 then c
            else c.growItemById side1Neighbour.id tookLocally .Side2Only
                   .ImmediateNeighboursFirst false .Side2SeparatorMove

end FlatContainer

/-!
Concrete scenario states (spec section 8).  S1: a root container at
(0, 0, 1000, 600) holding a single visible leaf L1 with minimum size
80 x 90 that occupies the full rect, orientation Horizontal.  S2: L2
(minimum 80 x 90) inserted at Location_OnRight with DefaultSizeMode::Fair.
-/

def leafL1 : Leaf :=
  ⟨1, { geometry := ⟨0, 0, 1000, 600⟩, minSize := ⟨80, 90⟩ }, true⟩

def rootS1 : FlatContainer :=
  { m_sizingInfo := { geometry := ⟨0, 0, 1000, 600⟩, minSize := ⟨80, 90⟩ },
    m_orientation := .Horizontal,
    m_children := [leafL1] }

def leafL2 : Leaf :=
  ⟨2, { geometry := ⟨0, 0, 0, 0⟩, minSize := ⟨80, 90⟩ }, true⟩

/-- The state after the S2 insertion, as computed by the embedded
insertItem. -/
def rootS2 : FlatContainer :=
  rootS1.insertItemAtLocation leafL2 .OnRight .Fair .None

/-- The S2 state as the claim describes it: L1 at width 497, the separator
at 497, L2 at (502, 0, 498, 600). -/
def s2claim : FlatContainer :=
  { m_sizingInfo := { geometry := ⟨0, 0, 1000, 600⟩, minSize := ⟨80, 90⟩ },
    m_orientation := .Horizontal,
    m_children :=
      [⟨1, { geometry := ⟨0, 0, 497, 600⟩, minSize := ⟨80, 90⟩ }, true⟩,
       ⟨2, { geometry := ⟨502, 0, 498, 600⟩, minSize := ⟨80, 90⟩ }, true⟩] }

/-- Three donors with availability 3 each (width 83 against a minimum width
of 80), the input of the C5 comparison. -/
def sizesC5 : List SizingInfo :=
  [{ geometry := ⟨0, 0, 83, 600⟩, minSize := ⟨80, 90⟩ },
   { geometry := ⟨83, 0, 83, 600⟩, minSize := ⟨80, 90⟩ },
   { geometry := ⟨166, 0, 83, 600⟩, minSize := ⟨80, 90⟩ }]

/-- Pointwise QPoint addition (operator+ on QPoint). -/
def paddQP (a b : QPoint) : QPoint := ⟨a.x + b.x, a.y + b.y⟩

/-- Pointwise QPoint subtraction (operator- on QPoint). -/
def psubQP (a b : QPoint) : QPoint := ⟨a.x - b.x, a.y - b.y⟩

/-- Item::mapToRoot(QPoint) along the chain of pos() values of an item and
its ancestors, item first and root last: the root returns the point
unchanged, any other node returns p + parentContainer()->mapToRoot(pos()). -/
def mapToRootChain : List QPoint → QPoint → QPoint
  | [], p => p
  | [_], p => p
  | x :: y :: rest, p => paddQP p (mapToRootChain (y :: rest) x)

/-- Item::mapFromRoot(QPoint): the while loop subtracting it->pos() for the
item and every ancestor, the root included. -/
def mapFromRootChain : List QPoint → QPoint → QPoint
  | [], p => p
  | x :: rest, p => mapFromRootChain rest (psubQP p x)

/-- The QPoint sum of a chain. -/
def sumQP (l : List QPoint) : QPoint := l.foldr paddQP ⟨0, 0⟩


/-!
General tree model (Item / ItemContainer as a tree), used for
serialization round-trip, separator derivation, and the
separator-propagation lookup.  A container node stores its SizingInfo, its
m_isVisible flag (serialized even though container visibility is computed),
its orientation and its children; the mutual Forest type stands for
QVector of children.
-/

mutual
inductive ITree where
  | leaf (sizing : SizingInfo) (m_isVisible : Bool)
  | node (sizing : SizingInfo) (m_isVisible : Bool) (m_orientation : Orientation)
      (children : Forest)
deriving DecidableEq, Repr

inductive Forest where
  | nil
  | cons (t : ITree) (ts : Forest)
deriving DecidableEq, Repr
end

def Forest.toList : Forest → List ITree
  | .nil => []
  | .cons t ts => t :: Forest.toList ts

mutual
def ITree.isVisibleT (excludeBeingInserted : Bool) : ITree → Bool
  | .leaf s v => v && !(excludeBeingInserted && s.isBeingInserted)
  | .node _ _ _ ch => Forest.hasVisibleT excludeBeingInserted ch
termination_by structural t => t

def Forest.hasVisibleT (excludeBeingInserted : Bool) : Forest → Bool
  | .nil => false
  | .cons t ts =>
    ITree.isVisibleT excludeBeingInserted t || Forest.hasVisibleT excludeBeingInserted ts
termination_by structural ts => ts
end

def ITree.sizingOf : ITree → SizingInfo
  | .leaf s _ => s
  | .node s _ _ _ => s

def ITree.lengthT (t : ITree) (o : Orientation) : Int := (ITree.sizingOf t).length o

/-- visibleChildren() membership: isVisible() and not being inserted. -/
def visiblePred (t : ITree) : Bool :=
  ITree.isVisibleT false t && !(ITree.sizingOf t).isBeingInserted

/-- ItemContainer::visibleChildren() on a child list. -/
def visibleListT (children : List ITree) : List ITree := children.filter visiblePred

/-- The children itemized by requiredSeparatorPositions and checkSanity
(isVisible() only, no being-inserted exclusion). -/
def visibleItemsT (children : List ITree) : List ITree :=
  children.filter (fun t => ITree.isVisibleT false t)

/-- ItemContainer::numVisibleChildren. -/
def numVisibleT (children : List ITree) : Nat :=
  children.countP (fun t => ITree.isVisibleT false t)

/-- Accumulator of the ItemContainer::minSize loop. -/
structure MinAcc where
  minW : Int
  minH : Int
  numVisible : Nat
deriving DecidableEq, Repr

mutual
/-- Item::minSize / ItemContainer::minSize: leaves report their stored
minimum, containers compute theirs from the (visible or being-inserted)
children plus the separator waste. -/
def ITree.minSizeT : ITree → QSize
  | .leaf s _ => s.minSize
  | .node _ _ o ch =>
    let acc := Forest.minAcc o ch
    let separatorWaste := max 0 (((acc.numVisible : Int) - 1) * separatorThickness)
    match o with
    | .Vertical => ⟨acc.minW, acc.minH + separatorWaste⟩
    | .Horizontal => ⟨acc.minW + separatorWaste, acc.minH⟩
termination_by structural t => t

def Forest.minAcc (o : Orientation) : Forest → MinAcc
  | .nil => ⟨0, 0, 0⟩
  | .cons t ts =>
    let r := Forest.minAcc o ts
    if ITree.isVisibleT false t || (ITree.sizingOf t).isBeingInserted then
      let ms := ITree.minSizeT t
      match o with
      | .Vertical => ⟨max r.minW ms.w, r.minH + ms.h, r.numVisible + 1⟩
      | .Horizontal => ⟨r.minW + ms.w, max r.minH ms.h, r.numVisible + 1⟩
    else r
termination_by structural ts => ts
end

def ITree.minLengthT (t : ITree) (o : Orientation) : Int := lengthOf (ITree.minSizeT t) o

/-!
Serialization (Item::toVariantMap / fillFromVariantMap and the container
overrides).  The map keys are fixed, so the serialized form is modelled as a
record per node: sizingInfo (geometry, minSize, maxSize), isVisible, the
isContainer tag (the constructor), and for containers the orientation (the
Qt enum value) and the children list.  objectName and guestId only correlate
guests and are outside the layout model.
-/

mutual
inductive VMap where
  | leafMap (geometry : QRect) (minSize maxSize : QSize) (isVisible : Bool)
  | nodeMap (geometry : QRect) (minSize maxSize : QSize) (isVisible : Bool)
      (orientation : Int) (children : VList)
deriving DecidableEq, Repr

inductive VList where
  | vnil
  | vcons (m : VMap) (ms : VList)
deriving DecidableEq, Repr
end

/-- Qt::Horizontal = 1, Qt::Vertical = 2; toVariantMap stores the enum value. -/
def orientationToInt : Orientation → Int
  | .Horizontal => 1
  | .Vertical => 2

/-- The Qt::Orientation(int) cast on deserialization. -/
def orientationOfInt (n : Int) : Orientation :=
  if n = 1 then .Horizontal else .Vertical

mutual
def ITree.toVariantMap : ITree → VMap
  | .leaf s v => .leafMap s.geometry s.minSize s.maxSize v
  | .node s v o ch =>
    .nodeMap s.geometry s.minSize s.maxSize v (orientationToInt o) (Forest.toVariantList ch)
termination_by structural t => t

def Forest.toVariantList : Forest → VList
  | .nil => .vnil
  | .cons t ts => .vcons (ITree.toVariantMap t) (Forest.toVariantList ts)
termination_by structural ts => ts
end

mutual
/-- Item::fillFromVariantMap / ItemContainer::fillFromVariantMap: rebuilds
the node from the map; SizingInfo::fromVariantMap resets the transient
fields (percentageWithinParent, isBeingInserted) to their defaults before
loading geometry, minSize and maxSize; children are created as containers or
leaves according to the isContainer tag. -/
def VMap.fillTree : VMap → ITree
  | .leafMap g mn mx v => .leaf { geometry := g, minSize := mn, maxSize := mx } v
  | .nodeMap g mn mx v oi ch =>
    .node { geometry := g, minSize := mn, maxSize := mx } v (orientationOfInt oi)
      (VList.fillForest ch)
termination_by structural m => m

def VList.fillForest : VList → Forest
  | .vnil => .nil
  | .vcons m ms => .cons (VMap.fillTree m) (VList.fillForest ms)
termination_by structural ms => ms
end

mutual
/-- The transient-field reset performed by SizingInfo::fromVariantMap on
every node of a rebuilt tree. -/
def ITree.resetTransient : ITree → ITree
  | .leaf s v => .leaf { geometry := s.geometry, minSize := s.minSize, maxSize := s.maxSize } v
  | .node s v o ch =>
    .node { geometry := s.geometry, minSize := s.minSize, maxSize := s.maxSize } v o
      (Forest.resetTransientF ch)
termination_by structural t => t

def Forest.resetTransientF : Forest → Forest
  | .nil => .nil
  | .cons t ts => .cons (ITree.resetTransient t) (Forest.resetTransientF ts)
termination_by structural ts => ts
end

/-- ItemContainer::usableLength for a tree node with the given sizing and
children. -/
def usableLengthT (s : SizingInfo) (o : Orientation) (ch : Forest) : Int :=
  let n := (visibleListT ch.toList).length
  if n ≤ 1 then s.length o
  else s.length o - separatorThickness * ((n : Int) - 1)

mutual
/-- ItemContainer::updateChildPercentages_recursive, with the percentage a
node receives from its parent passed in: visible non-inserted children get
length / usableLength, the others 0, and containers recurse. -/
def ITree.updatePercWith (p : ℚ) : ITree → ITree
  | .leaf s v => .leaf { s with percentageWithinParent := p } v
  | .node s v o ch =>
    .node { s with percentageWithinParent := p } v o
      (Forest.updatePercChildren o (usableLengthT s o ch) ch)
termination_by structural t => t

def Forest.updatePercChildren (o : Orientation) (usable : Int) : Forest → Forest
  | .nil => .nil
  | .cons t ts =>
    let s := ITree.sizingOf t
    let pc : ℚ :=
      if ITree.isVisibleT false t && !s.isBeingInserted then
        divQInt (s.length o) usable
      else 0
    .cons (ITree.updatePercWith pc t) (Forest.updatePercChildren o usable ts)
termination_by structural ts => ts
end

/-- updateChildPercentages_recursive as called on the root (whose own
percentage nobody sets). -/
def ITree.updatePercRec : ITree → ITree
  | .leaf s v => .leaf s v
  | .node s v o ch => .node s v o (Forest.updatePercChildren o (usableLengthT s o ch) ch)

/-- Deserialization of a root container: rebuild the tree from the map, then
recompute the child percentages (fillFromVariantMap does this when
isRoot()). -/
def deserializeRoot (m : VMap) : ITree := ITree.updatePercRec (VMap.fillTree m)

mutual
/-- No node of the tree has its isBeingInserted flag set (the steady state
between public mutations). -/
def ITree.noBI : ITree → Bool
  | .leaf s _ => !s.isBeingInserted
  | .node s _ _ ch => !s.isBeingInserted && Forest.noBIF ch
termination_by structural t => t

def Forest.noBIF : Forest → Bool
  | .nil => true
  | .cons t ts => ITree.noBI t && Forest.noBIF ts
termination_by structural ts => ts
end

/-- The loop of ItemContainer::requiredSeparatorPositions: walks the
children in order, emits mapToRoot(edge + 1) (= offset + edge + 1, offset
being the container root offset along its orientation) for each visible
child, stopping once numSeparators positions exist. -/
def reqSepGoT (o : Orientation) (offset : Int) : List ITree → Nat → List Int
  | [], _ => []
  | t :: ts, budget =>
    if budget = 0 then []
    else if ITree.isVisibleT false t then
      (offset + (ITree.sizingOf t).edge o + 1) :: reqSepGoT o offset ts (budget - 1)
    else reqSepGoT o offset ts budget

/-- ItemContainer::requiredSeparatorPositions for a container with the given
orientation, root offset along it, and children. -/
def requiredSeparatorPositionsT (o : Orientation) (offset : Int)
    (children : List ITree) : List Int :=
  reqSepGoT o offset children (numVisibleT children - 1)

/-- ItemContainer::updateSeparators: reconciles m_separators with the
required positions by position, so afterwards the stored separators sit at
exactly requiredSeparatorPositions (surplus separators are destroyed and
missing positions get fresh separators). -/
def updateSeparatorsT (o : Orientation) (offset : Int)
    (children : List ITree) : List Int :=
  requiredSeparatorPositionsT o offset children

/-- visibleChildren().indexOf(child at raw index): the index of the raw
child within the visible children, none when it is not one of them. -/
def visibleIndexOf (children : List ITree) (raw : Nat) : Option Nat :=
  match children[raw]? with
  | none => none
  | some t =>
    if visiblePred t then some ((children.take raw).countP visiblePred) else none

/-- ItemContainer::availableOnSide for the child at the given raw index:
visible-neighbour length minus minimum length on that side, along the
container orientation (neighboursLengthFor / neighboursMinLengthFor with
o = m_orientation). -/
def availableOnSideT (children : List ITree) (oc : Orientation) (raw : Nat)
    (side : Side) : Int :=
  match visibleIndexOf children raw with
  | none => 0
  | some index =>
    let vis := visibleListT children
    let range := match side with
      | .Side1 => vis.take index
      | .Side2 => vis.drop (index + 1)
    ((range.map (fun t => ITree.lengthT t oc)).sum)
      - ((range.map (fun t => ITree.minLengthT t oc)).sum)

/-- ItemContainer::availableOnSide_recursive, restated top-down along the
path from the root to the item: each ancestor level whose orientation
matches contributes availableOnSide of the intermediate child, and the climb
always continues to the root. -/
def availRecDown : ITree → List Nat → Side → Orientation → Int
  | .node _ _ oc ch, i :: rest, side, o =>
    (if o = oc then availableOnSideT ch.toList oc i side else 0) +
    (match ch.toList.get? i with
     | some t => availRecDown t rest side o
     | none => 0)
  | _, _, _, _ => 0

/-- One ancestor level of the neighbourSeparator climb: the ancestor
orientation, its children, and the raw index of the child the climb came
from. -/
structure SpineLevel where
  m_orientation : Orientation
  children : List ITree
  childIndex : Nat
deriving Repr

/-- ItemContainer::neighbourSeparator, as the climb over the ancestor spine
(deepest ancestor first; the empty spine is the isRoot() null return).  At
each level the item index among the visible children is resolved first
(null when absent); a level of different orientation forwards to its parent;
a matching level returns separator side1 ? itemIndex-1 : itemIndex, or null
when that is out of range of the m_separators list, whose size is
max(0, numVisible - 1) after updateSeparators. -/
def neighbourSepUp : List SpineLevel → Side → Orientation → Option Nat
  | [], _, _ => none
  | lvl :: rest, side, o =>
    match visibleIndexOf lvl.children lvl.childIndex with
    | none => none
    | some itemIndex =>
      if o = lvl.m_orientation then
        let separatorIndex : Int := match side with
          | .Side1 => (itemIndex : Int) - 1
          | .Side2 => (itemIndex : Int)
        let numSeparators : Int := (numVisibleT lvl.children : Int) - 1
        if separatorIndex < 0 ∨ numSeparators ≤ separatorIndex then none
        else some separatorIndex.toNat
      else neighbourSepUp rest side o

/-- The ancestor spine of the node at the given path, deepest ancestor
first. -/
def spineOf : ITree → List Nat → List SpineLevel
  | _, [] => []
  | .node _ _ oc ch, i :: rest =>
    (match ch.toList.get? i with
     | some t => spineOf t rest
     | none => []) ++ [⟨oc, ch.toList, i⟩]
  | .leaf _ _, _ :: _ => []

/-- The root offset of the node at the given path along an axis: the sum of
the parent-local positions of the nodes below the root (what mapToRoot adds
for a container). -/
def pathOffset : ITree → List Nat → Orientation → Int
  | _, [], _ => 0
  | .node _ _ _ ch, i :: rest, o =>
    (match ch.toList.get? i with
     | some t => (ITree.sizingOf t).position o + pathOffset t rest o
     | none => 0)
  | .leaf _ _, _ :: _, _ => 0

/-- The child-tiling loop of ItemContainer::checkSanity: visible children
sit at expectedPos, each advancing it by its length plus the separator
thickness. -/
def tileCheck (o : Orientation) : Int → List ITree → Bool
  | _, [] => true
  | expected, t :: ts =>
    let p := (ITree.sizingOf t).position o
    decide (p = expected) && tileCheck o (p + ITree.lengthT t o + separatorThickness) ts

mutual
/-- The geometric core of checkSanity: minimum sizes honoured, visible
children tiled from 0 along the orientation with separator gaps, every
visible child spanning the opposite length, the occupied length equal to the
container length, the child percentages summing to 1, and the same
recursively. -/
def ITree.saneT : ITree → Bool
  | .leaf s _ =>
    decide (s.minSize.w ≤ s.geometry.w) && decide (s.minSize.h ≤ s.geometry.h)
  | .node s _ o ch =>
    let acc := Forest.minAcc o ch
    let separatorWaste := max 0 (((acc.numVisible : Int) - 1) * separatorThickness)
    let minSz : QSize := match o with
      | .Vertical => ⟨acc.minW, acc.minH + separatorWaste⟩
      | .Horizontal => ⟨acc.minW + separatorWaste, acc.minH⟩
    let vis := visibleItemsT ch.toList
    let visNoBI := visibleListT ch.toList
    let occupied := max 0 (separatorThickness * ((visNoBI.length : Int) - 1))
      + (visNoBI.map (fun t => ITree.lengthT t o)).sum
    decide (minSz.w ≤ s.geometry.w) && decide (minSz.h ≤ s.geometry.h) &&
    tileCheck o 0 vis &&
    vis.all (fun t =>
      decide (ITree.lengthT t (oppositeOrientation o) = s.length (oppositeOrientation o))) &&
    (visNoBI.isEmpty ||
      (decide (occupied = s.length o) &&
       decide (sumQ (visNoBI.map (fun t => (ITree.sizingOf t).percentageWithinParent)) = 1))) &&
    Forest.saneF ch
termination_by structural t => t

def Forest.saneF : Forest → Bool
  | .nil => true
  | .cons t ts => ITree.saneT t && Forest.saneF ts
termination_by structural ts => ts
end


/-!
The concrete tree used against claim C9: root (Horizontal) holds the wide
leaf A and the container U (Vertical); U holds leaf B above container T
(Horizontal); T holds container S (Vertical) before leaf D; S holds
container R (Horizontal) above leaf E; R holds the leaves L1 and L2.  Every
leaf except A sits at the hardcoded minimum 80 x 90; A is 100 wider than its
minimum.  All geometries are parent-local, percentages are exact, and the
tree passes the geometric checkSanity core.
-/

def mkForest : List ITree → Forest
  | [] => .nil
  | t :: ts => .cons t (mkForest ts)

def leafT (x y w h : Int) (p : ℚ) : ITree :=
  .leaf { geometry := ⟨x, y, w, h⟩, minSize := ⟨80, 90⟩, percentageWithinParent := p } true

def l1T : ITree := leafT 0 0 80 90 (divQInt 80 160)
def l2T : ITree := leafT 85 0 80 90 (divQInt 80 160)
def eT : ITree := leafT 0 95 165 90 (divQInt 90 180)
def dT : ITree := leafT 170 0 80 185 (divQInt 80 245)
def bT : ITree := leafT 0 0 250 90 (divQInt 90 275)
def aT : ITree := leafT 0 0 180 280 (divQInt 180 430)

def rT : ITree :=
  .node { geometry := ⟨0, 0, 165, 90⟩, minSize := ⟨165, 90⟩, percentageWithinParent := divQInt 90 180 }
    true .Horizontal (mkForest [l1T, l2T])
def sT : ITree :=
  .node { geometry := ⟨0, 0, 165, 185⟩, minSize := ⟨165, 185⟩, percentageWithinParent := divQInt 165 245 }
    true .Vertical (mkForest [rT, eT])
def tT : ITree :=
  .node { geometry := ⟨0, 95, 250, 185⟩, minSize := ⟨250, 185⟩, percentageWithinParent := divQInt 185 275 }
    true .Horizontal (mkForest [sT, dT])
def uT : ITree :=
  .node { geometry := ⟨185, 0, 250, 280⟩, minSize := ⟨250, 280⟩, percentageWithinParent := divQInt 250 430 }
    true .Vertical (mkForest [bT, tT])
def t9 : ITree :=
  .node { geometry := ⟨0, 0, 435, 280⟩, minSize := ⟨335, 280⟩ }
    true .Horizontal (mkForest [aT, uT])

/-!
The insertItem guard tested against claim C8.  ItemContainer::contains
checks only direct membership in m_children (pointer equality; the concrete
trees below have pairwise distinct nodes, so value equality coincides),
while contains_recursive — which insertItem does not call — searches the
whole subtree.
-/

/-- ItemContainer::contains: m_children.contains(item). -/
def containsItemT (children : List ITree) (item : ITree) : Bool :=
  children.any (fun t => decide (t = item))

mutual
/-- ItemContainer::contains_recursive: a direct child equal to the item, or
the item anywhere below a container child. -/
def ITree.containsRecT : ITree → ITree → Bool
  | .leaf _ _, _ => false
  | .node _ _ _ ch, item => Forest.containsRecF ch item
termination_by structural t item => t

def Forest.containsRecF : Forest → ITree → Bool
  | .nil, _ => false
  | .cons t ts, item =>
    decide (t = item) || ITree.containsRecT t item || Forest.containsRecF ts item
termination_by structural ts item => ts
end

/-- ItemContainer::hasOrientationFor on a child list: true with at most one
child, else the container orientation must match the location's. -/
def hasOrientationForT (children : List ITree) (o : Orientation) (loc : Location) : Bool :=
  decide (children.length ≤ 1) || decide (o = orientationForLocation loc)

/-- The child-list effect of ItemContainer::insertItem(Item*, Location,
mode) on the hasOrientationFor path: the contains(item) guard returns the
list unchanged; otherwise the index is 0 for a side-1 location and
m_children.size() for a side-2 one, and insertItem(item, index, mode)
executes m_children.insert(index, item).  The steps surrounding that
insertion (setIsVisible, setLength_recursive, setParentContainer,
restoreChild and the sizing propagation after it) update sizings and the
item's parent pointer but never remove from or reorder this child list. -/
def insertItemChildrenT (children : List ITree) (item : ITree) (loc : Location) :
    List ITree :=
  if containsItemT children item then children
  else
    let index := if locationIsSide1 loc then 0 else children.length
    children.take index ++ item :: children.drop index

/-!
The concrete nested state used against claim C8: a sane horizontal root P of
1000 x 600 holding leaf A (width 497) and the vertical sub-container C
(width 498), which holds the leaves B (height 297) above D (height 298).
B is in the tree under P (contains_recursive) but is not a direct child of
P, so inserting B into P passes the contains guard.
-/

def c8A : ITree :=
  .leaf { geometry := ⟨0, 0, 497, 600⟩, minSize := ⟨80, 90⟩,
          percentageWithinParent := divQInt 497 995 } true
def c8B : ITree :=
  .leaf { geometry := ⟨0, 0, 498, 297⟩, minSize := ⟨80, 90⟩,
          percentageWithinParent := divQInt 297 595 } true
def c8D : ITree :=
  .leaf { geometry := ⟨0, 302, 498, 298⟩, minSize := ⟨80, 90⟩,
          percentageWithinParent := divQInt 298 595 } true
def c8C : ITree :=
  .node { geometry := ⟨502, 0, 498, 600⟩, minSize := ⟨80, 185⟩,
          percentageWithinParent := divQInt 498 995 }
    true .Vertical (mkForest [c8B, c8D])
def c8root : ITree :=
  .node { geometry := ⟨0, 0, 1000, 600⟩, minSize := ⟨165, 185⟩ }
    true .Horizontal (mkForest [c8A, c8C])

/-- C1, counterexample.  The claim expects L1 = (0,0,497,600), the separator
at 497 and L2 = (502,0,498,600) after inserting L2 at Location_OnRight with
Fair into the S1 state.  The code instead gives the inserted item the Fair
length 497 and steals 497 + separatorThickness = 502 from L1, producing
L1 = (0,0,498,600), separator position 498, L2 = (503,0,497,600). -/
theorem c1_insert_fair_counterexample :
    rootS2.m_children.map (fun item => item.sizing.geometry)
        = [⟨0, 0, 498, 600⟩, ⟨503, 0, 497, 600⟩] ∧
    rootS2.requiredSeparatorPositions = [498] ∧
    ¬ (rootS2.m_children.map (fun item => item.sizing.geometry)
          = [⟨0, 0, 497, 600⟩, ⟨502, 0, 498, 600⟩] ∧
        rootS2.requiredSeparatorPositions = [497]) := by
  decide

/-- C1, amended.  Inserting L2 at Location_OnRight relative to the S1 root
with Fair yields two visible children with L1.geometry = (0,0,498,600),
exactly one separator, at x = 498 of thickness 5, and
L2.geometry = (503,0,497,600). -/
theorem c1_insert_fair_amended :
    rootS2.m_children.map (fun item => item.isVisible false) = [true, true] ∧
    rootS2.m_children.map (fun item => item.sizing.geometry)
        = [⟨0, 0, 498, 600⟩, ⟨503, 0, 497, 600⟩] ∧
    rootS2.requiredSeparatorPositions = [498] ∧
    separatorThickness = 5 := by
  decide

/-- C2, counterexample.  In the configuration the claim starts from
(L1 width 497 with min 80, separator at 497, L2 width 498), requesting a
separator move by -450 does not apply a partial move down to L1.width = 80:
the initial global bounds check (new position 47 is below the global
minimum 80) rejects the request and the layout is completely unchanged, so
the widths stay [497, 498] instead of the claimed [80, 915]. -/
theorem c2_drag_beyond_min_counterexample :
    s2claim.requestSeparatorMove 0 (-450) = s2claim ∧
    (s2claim.requestSeparatorMove 0 (-450)).m_children.map
        (fun item => item.sizing.geometry.w) = [497, 498] ∧
    ¬ ((s2claim.requestSeparatorMove 0 (-450)).m_children.map
        (fun item => item.sizing.geometry.w) = [80, 915]) := by
  decide

/-- C2, amended.  In the S2 configuration of the claim, a separator move
request of -450 fails the global bounds check (497 - 450 = 47 is below
minPosForSeparator_global = 80) and is rejected outright: the operation is
a no-op and no partial move is applied. -/
theorem c2_drag_beyond_min_amended :
    s2claim.requiredSeparatorPositions = [497] ∧
    s2claim.minPosForSeparator_global 0 = 80 ∧
    ((497 : Int) + (-450) < 80) ∧
    s2claim.requestSeparatorMove 0 (-450) = s2claim := by
  decide

/-- C6: the Fair default length is usable_length / (visible_count + 1) along
the container axis (whenever the clamp against the item minimum does not
engage, which is what the accompanying lower bound describes), and in every
default size mode the computed length is at least the item minLength along
that axis. -/
theorem c6_defaultLengthFor (c : FlatContainer) (item : SizingInfo) (mode : DefaultSizeMode)
    (hFair : item.minLength c.m_orientation ≤ c.fairLengthFor) :
    c.defaultLengthFor item DefaultSizeMode.Fair = c.fairLengthFor ∧
    c.fairLengthFor
      = Int.tdiv (c.containerLength - separatorThickness * (c.numVisibleChildren : Int))
          ((c.numVisibleChildren : Int) + 1) ∧
    item.minLength c.m_orientation ≤ c.defaultLengthFor item mode := by
  refine ⟨?_, ?_, ?_⟩
  · simp [FlatContainer.defaultLengthFor, max_eq_right hFair]
  · simp only [FlatContainer.fairLengthFor]
    norm_num
  · cases mode <;> exact le_max_left _ _

/-- C6, witness: in the S1 root (length 1000, one visible child) the Fair
value is (1000 - 5) / 2 = 497 and the minimum 80 is below it. -/
theorem c6_defaultLengthFor_witness :
    leafL2.sizing.minLength rootS1.m_orientation ≤ rootS1.fairLengthFor ∧
    (rootS1.defaultLengthFor leafL2.sizing DefaultSizeMode.Fair = rootS1.fairLengthFor ∧
     rootS1.fairLengthFor
       = Int.tdiv (rootS1.containerLength
             - separatorThickness * (rootS1.numVisibleChildren : Int))
           ((rootS1.numVisibleChildren : Int) + 1) ∧
     leafL2.sizing.minLength rootS1.m_orientation
       ≤ rootS1.defaultLengthFor leafL2.sizing DefaultSizeMode.Fair) :=
  ⟨by decide, c6_defaultLengthFor rootS1 leafL2.sizing .Fair (by decide)⟩

/-- C8, amended: the contains(item) guard at the top of insertItem checks
only direct membership in m_children, not the whole tree.  When the item is
already a direct child the operation is logged and is a complete no-op (the
container, its geometries and its derived separators unchanged); when it is
not a direct child — even one living deeper in the tree — the guard passes
and insertItem proceeds, inserting the item into m_children at index 0 for
a side-1 location and m_children.size() for a side-2 one, so the child list
grows by one and the tree is mutated. -/
theorem c8_insert_direct_guard_amended (c : FlatContainer) (item : Leaf) (loc : Location)
    (mode : DefaultSizeMode) (opt : AddingOption)
    (children : List ITree) (x : ITree) (loc2 : Location) :
    (c.contains item = true → c.insertItemAtLocation item loc mode opt = c) ∧
    (containsItemT children x = false →
      insertItemChildrenT children x loc2
        = children.take (if locationIsSide1 loc2 then 0 else children.length)
            ++ x :: children.drop (if locationIsSide1 loc2 then 0 else children.length)
      ∧ (insertItemChildrenT children x loc2).length = children.length + 1) := by
  constructor
  · intro h
    unfold FlatContainer.insertItemAtLocation
    simp [h]
  · intro h
    have hng : ¬ (containsItemT children x = true) := by simp [h]
    rw [insertItemChildrenT, if_neg hng]
    refine ⟨rfl, ?_⟩
    by_cases hl : locationIsSide1 loc2 = true
    · simp [hl]
    · simp only [Bool.not_eq_true] at hl
      simp [hl]

/-- Invariant of the BothSidesEqually loop: with enough combined
availability, the produced growth pair exhausts toSteal exactly and stays
within each side capacity.  Proved for any sufficient fuel; the loop
removes at least 1 from toSteal per iteration. -/
theorem growBothSidesGo_spec : ∀ (fuel toSteal a1 a2 : Nat), toSteal ≤ fuel →
    toSteal ≤ a1 + a2 →
    (growBothSidesGo fuel toSteal a1 a2).1 + (growBothSidesGo fuel toSteal a1 a2).2 = toSteal ∧
    (growBothSidesGo fuel toSteal a1 a2).1 ≤ a1 ∧
    (growBothSidesGo fuel toSteal a1 a2).2 ≤ a2 := by
  intro fuel
  induction fuel with
  | zero =>
    intro toSteal a1 a2 hf h
    interval_cases toSteal
    simp [growBothSidesGo]
  | succ fuel ih =>
    intro toSteal a1 a2 hf h
    by_cases h0 : toSteal = 0
    · simp [growBothSidesGo, h0]
    · by_cases h1 : a1 = 0
      · simp only [growBothSidesGo, if_neg h0, if_pos h1]
        omega
      · by_cases h2 : a2 = 0
        · simp only [growBothSidesGo, if_neg h0, if_neg h1, if_pos h2]
          omega
        · have htT : max 1 (toSteal / 2) ≤ toSteal := by omega
          by_cases h3 : toSteal - min (max 1 (toSteal / 2)) a1 = 0
          · simp only [growBothSidesGo, if_neg h0, if_neg h1, if_neg h2, if_pos h3]
            omega
          · have hrec := ih (toSteal - min (max 1 (toSteal / 2)) a1
                - min (max 1 (toSteal / 2)) a2)
              (a1 - min (max 1 (toSteal / 2)) a1) (a2 - min (max 1 (toSteal / 2)) a2)
              (by omega) (by omega)
            simp only [growBothSidesGo, if_neg h0, if_neg h1, if_neg h2, if_neg h3]
            omega

/-- C4: under the growItem precondition available1 + available2 >= toSteal,
the BothSidesEqually loop (iterating qMax(1, remaining / 2) per side,
bounded by each side availability, the other side absorbing the remainder
when one is exhausted) produces side growths that sum exactly to toSteal and
respect each side capacity; growItemSizes passes exactly this pair on to
shrinkNeighbours. -/
theorem c4_growItem_both_sides (toSteal available1 available2 : Nat)
    (h : toSteal ≤ available1 + available2) :
    (growBothSides toSteal available1 available2).1
        + (growBothSides toSteal available1 available2).2 = toSteal ∧
    (growBothSides toSteal available1 available2).1 ≤ available1 ∧
    (growBothSides toSteal available1 available2).2 ≤ available2 :=
  growBothSidesGo_spec toSteal toSteal available1 available2 le_rfl h

/-- C4, witness at toSteal = 5 against availabilities 10 and 10. -/
theorem c4_growItem_both_sides_witness :
    5 ≤ 10 + 10 ∧
    ((growBothSides 5 10 10).1 + (growBothSides 5 10 10).2 = 5 ∧
     (growBothSides 5 10 10).1 ≤ 10 ∧ (growBothSides 5 10 10).2 ≤ 10) :=
  ⟨by decide, c4_growItem_both_sides 5 10 10 (by decide)⟩

theorem innerPass_spec (toTake : Nat) : ∀ (ps : List (Nat × Nat)) (m : Nat),
    (innerPass toTake ps m).2 ≤ m ∧
    ((innerPass toTake ps m).1.map (fun p => p.2)).sum + (innerPass toTake ps m).2
        = (ps.map (fun p => p.2)).sum + m ∧
    ((innerPass toTake ps m).1.map (fun p => p.1)).sum + m
        = (ps.map (fun p => p.1)).sum + (innerPass toTake ps m).2 ∧
    List.Forall₂ (fun q p => q.1 + q.2 = p.1 + p.2) (innerPass toTake ps m).1 ps := by
  intro ps
  induction ps with
  | nil =>
    intro m
    simp [innerPass, List.Forall₂.nil]
  | cons p rest ih =>
    intro m
    by_cases hm : m = 0
    · subst hm
      simp only [innerPass, if_pos rfl]
      refine ⟨le_rfl, by simp, by simp, ?_⟩
      exact List.forall₂_same.mpr (fun x _ => rfl)
    · by_cases hp : p.1 = 0
      · have hr := ih m
        simp only [innerPass, if_neg hm, if_pos hp]
        refine ⟨hr.1, ?_, ?_, ?_⟩
        · simp only [List.map_cons, List.sum_cons]
          omega
        · simp only [List.map_cons, List.sum_cons]
          omega
        · exact List.Forall₂.cons rfl hr.2.2.2
      · have hr := ih (m - min m (min toTake p.1))
        have htook : min m (min toTake p.1) ≤ m := min_le_left _ _
        have htookp : min m (min toTake p.1) ≤ p.1 := by
          have := min_le_right toTake p.1
          omega
        simp only [innerPass, if_neg hm, if_neg hp]
        refine ⟨by omega, ?_, ?_, ?_⟩
        · simp only [List.map_cons, List.sum_cons]
          omega
        · simp only [List.map_cons, List.sum_cons]
          omega
        · exact List.Forall₂.cons (by omega) hr.2.2.2

theorem innerPass_progress (toTake : Nat) : ∀ (ps : List (Nat × Nat)) (m : Nat),
    0 < m → 0 < toTake → (∃ p ∈ ps, 0 < p.1) →
    (innerPass toTake ps m).2 < m := by
  intro ps
  induction ps with
  | nil =>
    intro m _ _ hex
    simp at hex
  | cons p rest ih =>
    intro m hm ht hex
    by_cases hp : p.1 = 0
    · have hex2 : ∃ q ∈ rest, 0 < q.1 := by
        rcases hex with ⟨q, hq, hq1⟩
        rcases List.mem_cons.mp hq with h | h
        · subst h; omega
        · exact ⟨q, h, hq1⟩
      have := ih m hm ht hex2
      simp only [innerPass, if_neg (by omega : ¬ m = 0), if_pos hp]
      exact this
    · have htook : 1 ≤ min m (min toTake p.1) := by omega
      have hs := innerPass_spec toTake rest (m - min m (min toTake p.1))
      simp only [innerPass, if_neg (by omega : ¬ m = 0), if_neg hp]
      omega

theorem forall₂_le_pairsum_mono :
    ∀ {l : List Nat} {ps' ps : List (Nat × Nat)},
    List.Forall₂ (fun q p => q ≤ p.1 + p.2) l ps' →
    List.Forall₂ (fun q p => q.1 + q.2 = p.1 + p.2) ps' ps →
    List.Forall₂ (fun q p => q ≤ p.1 + p.2) l ps := by
  intro l ps' ps h1
  induction h1 generalizing ps with
  | nil =>
    intro h2
    cases h2
    exact List.Forall₂.nil
  | cons hqp _ ih =>
    intro h2
    cases h2 with
    | cons hpq h2rest => exact List.Forall₂.cons (by omega) (ih h2rest)

theorem squeezeLoopGo_spec : ∀ (fuel : Nat) (ps : List (Nat × Nat)) (m : Nat),
    m ≤ fuel → m ≤ (ps.map (fun p => p.1)).sum →
    (squeezeLoopGo fuel ps m).sum = (ps.map (fun p => p.2)).sum + m ∧
    List.Forall₂ (fun q p => q ≤ p.1 + p.2) (squeezeLoopGo fuel ps m) ps := by
  intro fuel
  induction fuel with
  | zero =>
    intro ps m hf hav
    interval_cases m
    simp only [squeezeLoopGo]
    constructor
    · simp
    · rw [List.forall₂_map_left_iff]
      exact List.forall₂_same.mpr (fun x _ => by omega)
  | succ fuel ih =>
    intro ps m hf hav
    match m with
    | 0 =>
      simp only [squeezeLoopGo]
      constructor
      · simp
      · rw [List.forall₂_map_left_iff]
        exact List.forall₂_same.mpr (fun x _ => by omega)
    | m + 1 =>
      by_cases hd : ps.countP (fun p => decide (0 < p.1)) = 0
      · exfalso
        have hall : ∀ p ∈ ps, ¬ (0 < p.1) := by
          intro p hp
          have := List.countP_eq_zero.mp hd p hp
          simpa using this
        have : (ps.map (fun p => p.1)).sum = 0 := by
          apply List.sum_eq_zero
          intro x hx
          rcases List.mem_map.mp hx with ⟨p, hp, rfl⟩
          have := hall p hp
          omega
        omega
      · have hdpos : 0 < ps.countP (fun p => decide (0 < p.1)) := Nat.pos_of_ne_zero hd
        have hex : ∃ p ∈ ps, 0 < p.1 := by
          rcases List.countP_pos_iff.mp hdpos with ⟨p, hp, hdec⟩
          exact ⟨p, hp, by simpa using hdec⟩
        set nd := ps.countP (fun p => decide (0 < p.1)) with hnd
        set tT := if (m + 1) / nd = 0 then m + 1 else (m + 1) / nd with htT
        have htTpos : 0 < tT := by
          rw [htT]
          by_cases hq : (m + 1) / nd = 0
          · simp [hq]
          · simp only [if_neg hq]
            exact Nat.pos_of_ne_zero hq
        have hprog := innerPass_progress tT ps (m + 1) (by omega) htTpos hex
        have hspec := innerPass_spec tT ps (m + 1)
        have hrec := ih (innerPass tT ps (m + 1)).1 (innerPass tT ps (m + 1)).2
          (by omega) (by omega)
        simp only [squeezeLoopGo, if_neg hd]
        rw [← hnd, ← htT]
        constructor
        · omega
        · exact forall₂_le_pairsum_mono hrec.2 hspec.2.2.2

end Layouting

namespace Layouting

theorem squeezeLoopGo_fail : ∀ (fuel : Nat) (ps : List (Nat × Nat)) (m : Nat),
    m ≤ fuel → (ps.map (fun p => p.1)).sum < m →
    squeezeLoopGo fuel ps m = [] := by
  intro fuel
  induction fuel with
  | zero =>
    intro ps m hf hav
    omega
  | succ fuel ih =>
    intro ps m hf hav
    match m with
    | 0 => omega
    | m + 1 =>
      by_cases hd : ps.countP (fun p => decide (0 < p.1)) = 0
      · simp only [squeezeLoopGo, if_pos hd]
      · have hdpos : 0 < ps.countP (fun p => decide (0 < p.1)) := Nat.pos_of_ne_zero hd
        have hex : ∃ p ∈ ps, 0 < p.1 := by
          rcases List.countP_pos_iff.mp hdpos with ⟨p, hp, hdec⟩
          exact ⟨p, hp, by simpa using hdec⟩
        set nd := ps.countP (fun p => decide (0 < p.1)) with hnd
        set tT := if (m + 1) / nd = 0 then m + 1 else (m + 1) / nd with htT
        have htTpos : 0 < tT := by
          rw [htT]
          by_cases hq : (m + 1) / nd = 0
          · simp [hq]
          · simp only [if_neg hq]
            exact Nat.pos_of_ne_zero hq
        have hprog := innerPass_progress tT ps (m + 1) (by omega) htTpos hex
        have hspec := innerPass_spec tT ps (m + 1)
        have hrec := ih (innerPass tT ps (m + 1)).1 (innerPass tT ps (m + 1)).2
          (by omega) (by omega)
        simp only [squeezeLoopGo, if_neg hd]
        rw [← hnd, ← htT]
        exact hrec

theorem mapPairFst (L : List Nat) :
    (L.map (fun a => ((a, 0) : Nat × Nat))).map (fun p => p.1) = L := by
  induction L <;> simp [*]

theorem mapPairSnd_sum (L : List Nat) :
    ((L.map (fun a => ((a, 0) : Nat × Nat))).map (fun p => p.2)).sum = 0 := by
  induction L with
  | nil => simp
  | cons a t ih =>
    simp only [List.map_cons, List.sum_cons]
    simpa using ih

/-- C5, amended: calculateSqueezes with AllNeighbours loops while
missing > 0 counting the donors with remaining availability; the per-donor
take is missing / num_donors, or the whole remaining missing when that
quotient is zero, capped by the remaining missing and by the donor
availability.  When the donors can cover the needed amount, the returned
squeezes sum to exactly that amount and each donor squeeze is at most its
initial availability; when they cannot, the loop runs out of donors with
missing > 0 and fails (Q_ASSERT(false); return an empty vector). -/
theorem c5_calculateSqueezes_amended (sizes : List SizingInfo) (o : Orientation) (needed : Nat) :
    (needed ≤ (sizes.map (fun s => (s.availableLength o).toNat)).sum →
      (calculateSqueezes sizes o needed .AllNeighbours false).sum = needed ∧
      List.Forall₂ (fun sq av => sq ≤ av)
        (calculateSqueezes sizes o needed .AllNeighbours false)
        (sizes.map (fun s => (s.availableLength o).toNat))) ∧
    ((sizes.map (fun s => (s.availableLength o).toNat)).sum < needed →
      calculateSqueezes sizes o needed .AllNeighbours false = []) := by
  constructor
  · intro h
    have hspec := squeezeLoopGo_spec needed
      ((sizes.map (fun s => (s.availableLength o).toNat)).map (fun a => (a, 0)))
      needed le_rfl
      (by rw [mapPairFst]; exact h)
    constructor
    · simp only [calculateSqueezes, calculateSqueezesAll]
      rw [hspec.1, mapPairSnd_sum]
      exact Nat.zero_add needed
    · have := hspec.2
      simp only [calculateSqueezes, calculateSqueezesAll]
      rw [List.forall₂_map_right_iff] at this
      simpa using this
  · intro h
    simp only [calculateSqueezes, calculateSqueezesAll]
    apply squeezeLoopGo_fail needed _ needed le_rfl
    rw [mapPairFst]
    exact h

/-- C5, counterexample.  The claim describes the per-donor take as
qMax(1, missing / num_donors); the source instead takes the whole remaining
missing when the quotient is zero.  With three donors of availability 3 and
needed = 2 the source produces [2, 0, 0] while the described procedure
produces [1, 1, 0]. -/
theorem c5_calculateSqueezes_counterexample :
    calculateSqueezes sizesC5 .Horizontal 2 .AllNeighbours false = [2, 0, 0] ∧
    calculateSqueezesClaim sizesC5 .Horizontal 2 = [1, 1, 0] ∧
    ¬ (calculateSqueezes sizesC5 .Horizontal 2 .AllNeighbours false
        = calculateSqueezesClaim sizesC5 .Horizontal 2) := by
  decide

/-- C5, witness for the amended theorem at needed = 2 over three donors of
availability 3. -/
theorem c5_calculateSqueezes_amended_witness :
    2 ≤ (sizesC5.map (fun s => (s.availableLength Orientation.Horizontal).toNat)).sum ∧
    ((calculateSqueezes sizesC5 .Horizontal 2 .AllNeighbours false).sum = 2 ∧
     List.Forall₂ (fun sq av => sq ≤ av)
       (calculateSqueezes sizesC5 .Horizontal 2 .AllNeighbours false)
       (sizesC5.map (fun s => (s.availableLength Orientation.Horizontal).toNat))) :=
  ⟨by decide, (c5_calculateSqueezes_amended sizesC5 .Horizontal 2).1 (by decide)⟩

/-- C8, witness for the amended theorem: re-inserting the direct child L1
into the S1 root, and inserting the nested leaf B into the child list of the
root P of the c8 tree (where the guard passes). -/
theorem c8_insert_direct_guard_amended_witness :
    (rootS1.contains leafL1 = true →
      rootS1.insertItemAtLocation leafL1 Location.OnLeft DefaultSizeMode.Fair
          AddingOption.None = rootS1) ∧
    (containsItemT [c8A, c8C] c8B = false →
      insertItemChildrenT [c8A, c8C] c8B Location.OnRight
        = [c8A, c8C].take (if locationIsSide1 Location.OnRight then 0
              else [c8A, c8C].length)
            ++ c8B :: [c8A, c8C].drop (if locationIsSide1 Location.OnRight then 0
              else [c8A, c8C].length)
      ∧ (insertItemChildrenT [c8A, c8C] c8B Location.OnRight).length
          = [c8A, c8C].length + 1) :=
  c8_insert_direct_guard_amended rootS1 leafL1 .OnLeft .Fair .None [c8A, c8C] c8B .OnRight

/-- C8, counterexample.  In the sane nested tree c8root the leaf B is
already in the tree (contains_recursive finds it inside the sub-container
C) but is not a direct child of the root, so the contains guard of
insertItem does not fire; the root has the orientation for OnRight, the
insert proceeds and appends B to the root child list — the tree is mutated
(B now sits in two child lists), not left unchanged, and nothing is
logged. -/
theorem c8_insert_nested_counterexample :
    ITree.saneT c8root = true ∧
    ITree.containsRecT c8root c8B = true ∧
    containsItemT [c8A, c8C] c8B = false ∧
    hasOrientationForT [c8A, c8C] Orientation.Horizontal Location.OnRight = true ∧
    insertItemChildrenT [c8A, c8C] c8B Location.OnRight = [c8A, c8C, c8B] ∧
    ¬ insertItemChildrenT [c8A, c8C] c8B Location.OnRight = [c8A, c8C] ∧
    ITree.containsRecT c8C c8B = true := by
  decide

/-- Closed form of the mapFromRoot loop: subtract the sum of the whole
chain. -/
theorem mapFromRootChain_eq : ∀ (l : List QPoint) (p : QPoint),
    mapFromRootChain l p = psubQP p (sumQP l) := by
  intro l
  induction l with
  | nil =>
    intro p
    cases p
    simp [mapFromRootChain, sumQP, psubQP]
  | cons x rest ih =>
    intro p
    simp only [mapFromRootChain, sumQP, List.foldr_cons, ih]
    cases p; cases x
    simp only [psubQP, paddQP, QPoint.mk.injEq, sumQP]
    constructor <;> ring

theorem mapToRootChain_eq : ∀ (rest : List QPoint) (x : QPoint) (p : QPoint),
    mapToRootChain (x :: rest) p = paddQP p (sumQP (x :: rest).dropLast) := by
  intro rest
  induction rest with
  | nil =>
    intro x p
    cases p
    simp [mapToRootChain, sumQP, paddQP]
  | cons y rest ih =>
    intro x p
    simp only [mapToRootChain, ih y x]
    cases p; cases x
    simp only [paddQP, QPoint.mk.injEq, List.dropLast_cons₂, sumQP, List.foldr_cons]

/-- C10: when the root position (the last element of the ancestor chain) is
the origin, mapToRoot and mapFromRoot are mutually inverse on points:
mapToRoot adds the positions of the item and its ancestors below the root,
mapFromRoot subtracts the positions of the item and all its ancestors
including the root. -/
theorem c10_mapToRoot_mapFromRoot (anc : List QPoint) (p : QPoint) (h1 : anc ≠ [])
    (h2 : anc.getLast h1 = ⟨0, 0⟩) :
    mapFromRootChain anc (mapToRootChain anc p) = p ∧
    mapToRootChain anc (mapFromRootChain anc p) = p := by
  have hsum : sumQP anc = sumQP anc.dropLast := by
    conv_lhs => rw [← List.dropLast_append_getLast h1]
    rw [h2]
    generalize anc.dropLast = l
    induction l with
    | nil => simp [sumQP, paddQP]
    | cons a t ih =>
      simp only [List.cons_append, sumQP, List.foldr_cons] at *
      rw [ih]
  match anc, h1 with
  | x :: rest, _ =>
    rw [mapToRootChain_eq rest x p, mapFromRootChain_eq,
        mapFromRootChain_eq, mapToRootChain_eq, hsum]
    cases p
    constructor <;> simp [paddQP, psubQP, QPoint.mk.injEq]

/-- C10, witness on the chain of an item at (3, 4) directly below a root at
the origin. -/
theorem c10_mapToRoot_mapFromRoot_witness :
    (([⟨3, 4⟩, ⟨0, 0⟩] : List QPoint) ≠ []) ∧
    (([⟨3, 4⟩, ⟨0, 0⟩] : List QPoint).getLast (by simp) = ⟨0, 0⟩) ∧
    (mapFromRootChain [⟨3, 4⟩, ⟨0, 0⟩]
        (mapToRootChain [⟨3, 4⟩, ⟨0, 0⟩] ⟨10, 20⟩) = ⟨10, 20⟩ ∧
     mapToRootChain [⟨3, 4⟩, ⟨0, 0⟩]
        (mapFromRootChain [⟨3, 4⟩, ⟨0, 0⟩] ⟨10, 20⟩) = ⟨10, 20⟩) :=
  ⟨by simp, by rfl,
   c10_mapToRoot_mapFromRoot [⟨3, 4⟩, ⟨0, 0⟩] ⟨10, 20⟩ (by simp) (by rfl)⟩

end Layouting

namespace Layouting

theorem numVisibleT_eq (children : List ITree) :
    numVisibleT children = (visibleItemsT children).length := by
  simp [numVisibleT, visibleItemsT, List.countP_eq_length_filter]

theorem reqSepGoT_eq_take (o : Orientation) (offset : Int) :
    ∀ (children : List ITree) (budget : Nat),
    reqSepGoT o offset children budget
      = ((visibleItemsT children).take budget).map
          (fun t => offset + (ITree.sizingOf t).edge o + 1) := by
  intro children
  induction children with
  | nil =>
    intro budget
    simp [reqSepGoT, visibleItemsT]
  | cons t ts ih =>
    intro budget
    by_cases hb : budget = 0
    · subst hb
      simp [reqSepGoT]
    · by_cases hv : ITree.isVisibleT false t
      · obtain ⟨b, rfl⟩ : ∃ b, budget = b + 1 := ⟨budget - 1, by omega⟩
        simp [reqSepGoT, hv, visibleItemsT, List.filter_cons, ih]
      · simp [reqSepGoT, hb, hv, visibleItemsT, List.filter_cons, ih]

/-- C7: after updateSeparators (run by every layout-changing mutation on
every container), the separator list is exactly one separator after each
visible child but the last, at the root-mapped trailing edge plus one, so
there are max(0, visible_count - 1) separators and separator i sits
immediately after visible child i. -/
theorem c7_separator_positions (o : Orientation) (offset : Int) (children : List ITree) :
    updateSeparatorsT o offset children
      = ((visibleItemsT children).take (numVisibleT children - 1)).map
          (fun t => offset + (ITree.sizingOf t).edge o + 1) ∧
    ((updateSeparatorsT o offset children).length : Int)
      = max 0 ((numVisibleT children : Int) - 1) := by
  have h := reqSepGoT_eq_take o offset children (numVisibleT children - 1)
  refine ⟨h, ?_⟩
  rw [updateSeparatorsT, requiredSeparatorPositionsT, h, List.length_map, List.length_take,
    numVisibleT_eq]
  omega

theorem length_visibleListT_le (children : List ITree) :
    (visibleListT children).length ≤ numVisibleT children := by
  rw [visibleListT, numVisibleT, ← List.countP_eq_length_filter]
  apply List.countP_mono_left
  intro t _ h
  simp [visiblePred] at h
  simp [h.1]

theorem visibleIndexOf_lt (children : List ITree) (raw vi : Nat)
    (h : visibleIndexOf children raw = some vi) :
    vi < (visibleListT children).length := by
  rw [visibleIndexOf] at h
  rcases hg : children[raw]? with _ | t
  · rw [hg] at h
    exact absurd h (by simp)
  · rw [hg] at h
    dsimp only at h
    by_cases hv : visiblePred t
    · rw [if_pos hv, Option.some.injEq] at h
      subst h
      obtain ⟨hlt, helem⟩ := List.getElem?_eq_some_iff.mp hg
      have hdecomp : children = children.take raw ++ t :: children.drop (raw + 1) := by
        conv_lhs => rw [← List.take_append_drop raw children]
        rw [List.drop_eq_getElem_cons hlt, helem]
      rw [visibleListT, ← List.countP_eq_length_filter]
      conv_rhs => rw [hdecomp]
      rw [List.countP_append, List.countP_cons]
      simp [hv]
    · rw [if_neg hv] at h
      exact absurd h (by simp)

/-- C9, amended: the neighbour-separator climb does find a separator
whenever the nearest same-orientation ancestor level (the first matching
level walking up, every earlier level being of the other orientation with
its intermediate child among the visible children) has a visible child on
the move-direction side of its intermediate child; m_separators holds
max(0, numVisible - 1) separators per I6. -/
theorem c9_neighbourSeparator_amended :
    ∀ (pre : List SpineLevel) (lvl : SpineLevel) (rest : List SpineLevel) (side : Side)
      (o : Orientation) (vi : Nat),
    (∀ l ∈ pre, (visibleIndexOf l.children l.childIndex).isSome = true
        ∧ l.m_orientation ≠ o) →
    lvl.m_orientation = o →
    visibleIndexOf lvl.children lvl.childIndex = some vi →
    (side = Side.Side1 → 1 ≤ vi) →
    (side = Side.Side2 → (vi : Int) < (numVisibleT lvl.children : Int) - 1) →
    (neighbourSepUp (pre ++ lvl :: rest) side o).isSome = true := by
  intro pre
  induction pre with
  | nil =>
    intro lvl rest side o vi hpre hmatch hvi h1 h2
    have hlt : vi < (visibleListT lvl.children).length := visibleIndexOf_lt _ _ _ hvi
    have hle : (visibleListT lvl.children).length ≤ numVisibleT lvl.children :=
      length_visibleListT_le _
    simp only [List.nil_append, neighbourSepUp, hvi]
    rw [if_pos hmatch.symm]
    cases side with
    | Side1 =>
      have h1v := h1 rfl
      rw [if_neg (by push_neg; omega)]
      simp
    | Side2 =>
      have h2v := h2 rfl
      rw [if_neg (by push_neg; omega)]
      simp
  | cons l pre ih =>
    intro lvl rest side o vi hpre hmatch hvi h1 h2
    obtain ⟨hsome, hneq⟩ := hpre l (List.mem_cons_self _ _)
    obtain ⟨k, hk⟩ := Option.isSome_iff_exists.mp hsome
    simp only [List.cons_append, neighbourSepUp, hk]
    rw [if_neg (fun hh => hneq hh.symm)]
    exact ih lvl rest side o vi
      (fun x hx => hpre x (List.mem_cons_of_mem _ hx)) hmatch hvi h1 h2

/-- C9, witness for the amended theorem: a single matching level whose
intermediate child is the second of two visible children, side 1. -/
theorem c9_neighbourSeparator_amended_witness :
    visibleIndexOf [l1T, l2T] 1 = some 1 ∧
    (neighbourSepUp [⟨Orientation.Horizontal, [l1T, l2T], 1⟩]
        Side.Side1 Orientation.Horizontal).isSome = true :=
  ⟨by decide,
   c9_neighbourSeparator_amended [] ⟨Orientation.Horizontal, [l1T, l2T], 1⟩ []
     Side.Side1 Orientation.Horizontal 1 (by simp) rfl (by decide) (by decide)
     (by decide)⟩

/-- C9, counterexample.  In the sane tree t9 the separator of container R
(path [1,1,0,0], root offset 185) sits at 265; the move request delta = -50
passes the initial global bounds check (minimum 265 - 100 = 165, maximum
265 + 0), the local Side1 availability next to the separator is 0 so 50
remains after local absorption and R is not the root, yet the
neighbourSeparator climb returns null: the availability lives two
same-orientation levels up, while the climb stops at the first
same-orientation ancestor, whose intermediate child is its first visible
child.  The subsequent unguarded dereference of the returned separator is a
null dereference. -/
theorem c9_neighbourSeparator_counterexample :
    ITree.saneT t9 = true ∧
    ITree.noBI t9 = true ∧
    ITree.updatePercRec t9 = t9 ∧
    pathOffset t9 [1, 1, 0, 0] Orientation.Horizontal = 185 ∧
    requiredSeparatorPositionsT Orientation.Horizontal 185 (mkForest [l1T, l2T]).toList
      = [265] ∧
    availRecDown t9 [1, 1, 0, 0, 1] Side.Side1 Orientation.Horizontal = 100 ∧
    (265 : Int) - 100 ≤ 265 + (-50) ∧
    availRecDown t9 [1, 1, 0, 0, 0] Side.Side2 Orientation.Horizontal = 0 ∧
    (265 : Int) + (-50) ≤ 265 + 0 ∧
    availableOnSideT (mkForest [l1T, l2T]).toList Orientation.Horizontal 1 Side.Side1 = 0 ∧
    neighbourSepUp (spineOf t9 [1, 1, 0, 0]) Side.Side1 Orientation.Horizontal = none := by
  decide

end Layouting

namespace Layouting

theorem orientationOfInt_toInt (o : Orientation) :
    orientationOfInt (orientationToInt o) = o := by
  cases o <;> rfl

mutual
theorem fillTree_toVariantMap : ∀ (t : ITree),
    VMap.fillTree (ITree.toVariantMap t) = ITree.resetTransient t
  | .leaf s v => rfl
  | .node s v o ch => by
    have ih := fillForest_toVariantList ch
    simp only [ITree.toVariantMap, VMap.fillTree, ITree.resetTransient, ih,
      orientationOfInt_toInt]
termination_by structural t => t

theorem fillForest_toVariantList : ∀ (ts : Forest),
    VList.fillForest (Forest.toVariantList ts) = Forest.resetTransientF ts
  | .nil => rfl
  | .cons t ts => by
    have ih1 := fillTree_toVariantMap t
    have ih2 := fillForest_toVariantList ts
    simp only [Forest.toVariantList, VList.fillForest, Forest.resetTransientF, ih1, ih2]
termination_by structural ts => ts
end

theorem noBI_top : ∀ (t : ITree), ITree.noBI t = true →
    (ITree.sizingOf t).isBeingInserted = false
  | .leaf s v, h => by simpa [ITree.noBI, ITree.sizingOf] using h
  | .node s v o ch, h => by
    simp only [ITree.noBI, Bool.and_eq_true, Bool.not_eq_true'] at h
    simpa [ITree.sizingOf] using h.1

mutual
theorem isVisibleT_reset : ∀ (t : ITree),
    ITree.isVisibleT false (ITree.resetTransient t) = ITree.isVisibleT false t
  | .leaf s v => rfl
  | .node s v o ch => by
    have ih := hasVisibleT_resetF ch
    simp only [ITree.resetTransient, ITree.isVisibleT, ih]
termination_by structural t => t

theorem hasVisibleT_resetF : ∀ (ts : Forest),
    Forest.hasVisibleT false (Forest.resetTransientF ts) = Forest.hasVisibleT false ts
  | .nil => rfl
  | .cons t ts => by
    have ih1 := isVisibleT_reset t
    have ih2 := hasVisibleT_resetF ts
    simp only [Forest.resetTransientF, Forest.hasVisibleT, ih1, ih2]
termination_by structural ts => ts
end

theorem countVisible_resetF : ∀ (ts : Forest), Forest.noBIF ts = true →
    (visibleListT (Forest.resetTransientF ts).toList).length
      = (visibleListT ts.toList).length
  | .nil, _ => rfl
  | .cons t ts, h => by
    simp only [Forest.noBIF, Bool.and_eq_true] at h
    have hv := isVisibleT_reset t
    have hb1 : (ITree.sizingOf (ITree.resetTransient t)).isBeingInserted = false := by
      cases t <;> rfl
    have hb2 := noBI_top t h.1
    have hp : visiblePred (ITree.resetTransient t) = visiblePred t := by
      simp [visiblePred, hv, hb1, hb2]
    have ih := countVisible_resetF ts h.2
    simp only [visibleListT] at ih
    simp only [Forest.resetTransientF, Forest.toList, visibleListT, List.filter_cons]
    rw [hp]
    by_cases hvp : visiblePred t = true
    · simp [hvp, ih]
    · simp [hvp, ih]
termination_by structural ts h => ts

mutual
theorem updatePercWith_reset : ∀ (p : ℚ) (t : ITree), ITree.noBI t = true →
    ITree.updatePercWith p (ITree.resetTransient t) = ITree.updatePercWith p t
  | p, .leaf s v, h => by
    have h' : s.isBeingInserted = false := by simpa [ITree.noBI] using h
    cases s
    simp_all [ITree.resetTransient, ITree.updatePercWith]
  | p, .node s v o ch, h => by
    simp only [ITree.noBI, Bool.and_eq_true, Bool.not_eq_true'] at h
    have hn := countVisible_resetF ch h.2
    have hch := updatePercChildren_resetF o (usableLengthT s o ch) ch h.2
    simp only [ITree.resetTransient, ITree.updatePercWith]
    have hu : usableLengthT
        { geometry := s.geometry, minSize := s.minSize, maxSize := s.maxSize } o
        (Forest.resetTransientF ch) = usableLengthT s o ch := by
      simp only [usableLengthT, hn]
      rfl
    rw [hu, hch]
    have h1 := h.1
    cases s
    simp_all
termination_by structural p t h => t

theorem updatePercChildren_resetF : ∀ (o : Orientation) (u : Int) (ts : Forest),
    Forest.noBIF ts = true →
    Forest.updatePercChildren o u (Forest.resetTransientF ts)
      = Forest.updatePercChildren o u ts
  | _, _, .nil, _ => rfl
  | o, u, .cons t ts, h => by
    simp only [Forest.noBIF, Bool.and_eq_true] at h
    have hv := isVisibleT_reset t
    have hb1 : (ITree.sizingOf (ITree.resetTransient t)).isBeingInserted = false := by
      cases t <;> rfl
    have hb2 := noBI_top t h.1
    have hlen : (ITree.sizingOf (ITree.resetTransient t)).length o
        = (ITree.sizingOf t).length o := by cases t <;> rfl
    have ih := updatePercChildren_resetF o u ts h.2
    simp only [Forest.resetTransientF, Forest.updatePercChildren, hv, hb1, hb2, hlen, ih]
    rw [updatePercWith_reset _ t h.1]
termination_by structural o u ts h => ts
end

/-- C3: serialization round-trip.  For every valid steady-state tree (no
pending isBeingInserted flag, root percentage at its never-assigned default
0, child percentages consistent with updateChildPercentages), rebuilding
the tree from its variant map — which resets the transient SizingInfo
fields and then recomputes the child percentages on the root — reproduces
the tree exactly: same orientations, child order, geometries, minimum and
maximum sizes and visibility flags, and the recomputed
percentageWithinParent values agree exactly (so certainly within 1e-6). -/
theorem c3_serialization_roundtrip (t : ITree)
    (h1 : ITree.noBI t = true)
    (h2 : (ITree.sizingOf t).percentageWithinParent = 0)
    (h3 : ITree.updatePercRec t = t) :
    deserializeRoot (ITree.toVariantMap t) = t := by
  rw [deserializeRoot, fillTree_toVariantMap t]
  cases t with
  | leaf s v =>
    have hbi : s.isBeingInserted = false := by simpa [ITree.noBI] using h1
    simp only [ITree.sizingOf] at h2
    simp only [ITree.resetTransient, ITree.updatePercRec]
    cases s
    simp_all
  | node s v o ch =>
    simp only [ITree.noBI, Bool.and_eq_true, Bool.not_eq_true'] at h1
    simp only [ITree.sizingOf] at h2
    simp only [ITree.resetTransient, ITree.updatePercRec]
    have hs : ({ geometry := s.geometry, minSize := s.minSize, maxSize := s.maxSize }
        : SizingInfo) = s := by
      have h1a := h1.1
      cases s
      simp_all
    have hu : usableLengthT s o (Forest.resetTransientF ch) = usableLengthT s o ch := by
      simp only [usableLengthT, countVisible_resetF ch h1.2]
    rw [hs, hu, updatePercChildren_resetF o _ ch h1.2]
    simpa [ITree.updatePercRec] using h3

/-- C3, witness: the five-level sane tree t9 satisfies the validity
hypotheses and round-trips. -/
theorem c3_serialization_roundtrip_witness :
    ITree.noBI t9 = true ∧
    (ITree.sizingOf t9).percentageWithinParent = 0 ∧
    ITree.updatePercRec t9 = t9 ∧
    deserializeRoot (ITree.toVariantMap t9) = t9 :=
  ⟨by decide, by decide, by decide,
   c3_serialization_roundtrip t9 (by decide) (by decide) (by decide)⟩

end Layouting
